import Mathlib

/-!
Shallow embedding of the synchronization and diffing engine in
src/update-blocks.js: the snapshot store (BlockBatch/Block tables), the
fetch orchestration (updateBlocks / fetchAndStoreBlocks / handleIds /
finalizeBlockBatch), the diff engine (diffBatchWithPrevious), the
deactivation filter (recordUnblocksUnlessDeactivated), the action
recorder (recordAction) and the retention pruner (destroyOldBlocks).

Remote interactions are modelled by scripts: a list of programmed
responses for the blocks/ids endpoint and a list of programmed responses
for the users/lookup endpoint, consumed one element per request.  An
exhausted script behaves like a failed request.  Promise chains are
modelled as sequential state passing over a record of the persisted
tables; timestamps are integer milliseconds.
-/

namespace UpdateBlocksJs

/-- Action types passed to recordAction.  The source handles the
constants Action.BLOCK and Action.UNBLOCK; every other constant of the
wider system is represented by the catch-all constructor. -/
inductive ActionType
  | block
  | unblock
  | otherType (s : String)
deriving DecidableEq, Repr

/-- Causes of an Action.  recordAction creates actions with cause
Action.EXTERNAL; causes used elsewhere in the wider system are
represented by the catch-all constructor. -/
inductive Cause
  | external
  | otherCause (s : String)
deriving DecidableEq, Repr

/-- Action statuses; recordAction queries and creates status
Action.DONE. -/
inductive ActionStatus
  | done
  | otherStatus (s : String)
deriving DecidableEq, Repr

/-- A row of the Actions table. -/
structure ActionRow where
  id : Nat
  source_uid : String
  sink_uid : String
  type : ActionType
  cause : Cause
  status : ActionStatus
  cause_uid : Option String
  updatedAt : Int
deriving DecidableEq, Repr

/-- A row of the AnnotatedBlocks table: the derived current-state
projection keyed by (source_uid, sink_uid). -/
structure AnnotatedBlockRow where
  source_uid : String
  sink_uid : String
  actionId : Nat
  shared : Bool
deriving DecidableEq, Repr

/-- A row of the BlockBatch table: one (possibly incomplete) snapshot of
the block list of one account. -/
structure BlockBatch where
  id : Nat
  source_uid : String
  size : Nat
  currentCursor : Option String
  complete : Bool
deriving DecidableEq, Repr

/-- A row of the Block table: one blocked id inside one BlockBatch. -/
structure BlockRow where
  batchId : Nat
  sink_uid : String
deriving DecidableEq, Repr

/-- The persisted state, together with the in-memory activeFetches map
(modelled as an association list from uid to the id of the registered
in-flight run) and id counters for rows created with auto-increment
keys. -/
structure Db where
  batches : List BlockBatch
  blocks : List BlockRow
  twitterUsers : List String
  actions : List ActionRow
  annotatedBlocks : List AnnotatedBlockRow
  nextBatchId : Nat
  nextActionId : Nat
  active : List (String × Nat)
  nextRunId : Nat
deriving DecidableEq, Repr

def emptyDb : Db :=
  { batches := [], blocks := [], twitterUsers := [], actions := [],
    annotatedBlocks := [], nextBatchId := 1, nextActionId := 1,
    active := [], nextRunId := 0 }

/-- The dedup query recordAction issues before creating an action: same
(source_uid, sink_uid, type), status done, cause not EXTERNAL, updated
within the trailing 60 second window. -/
def dedupMatches (now : Int) (source_uid sink_uid : String) (type : ActionType)
    (a : ActionRow) : Bool :=
  a.source_uid == source_uid && a.sink_uid == sink_uid && a.type == type
    && !(a.cause == Cause.external) && a.status == ActionStatus.done
    && decide (now - 60 * 1000 < a.updatedAt)

/-- AnnotatedBlock.findOrCreate followed by merging in the action
reference and the shared bit, then save: an upsert keyed on
(source_uid, sink_uid). -/
def upsertAnnotatedBlock (row : AnnotatedBlockRow) (l : List AnnotatedBlockRow) :
    List AnnotatedBlockRow :=
  if l.any (fun b => b.source_uid == row.source_uid && b.sink_uid == row.sink_uid) then
    l.map (fun b =>
      if b.source_uid == row.source_uid && b.sink_uid == row.sink_uid then row else b)
  else
    l ++ [row]

/-- recordAction(source_uid, sink_uid, type) from src/update-blocks.js.
Searches for a recent matching non-EXTERNAL done action; when none is
found it creates a new action with cause EXTERNAL.  It then dispatches
on the type of the associated action: BLOCK upserts the AnnotatedBlock
row, UNBLOCK destroys it, and any other type rejects (the rejection is
caught and logged by the caller). -/
def recordAction (now : Int) (source_uid sink_uid : String) (type : ActionType)
    (st : Db) : Db × Except String ActionRow :=
  let prev := st.actions.find? (dedupMatches now source_uid sink_uid type)
  let stAct : Db × ActionRow :=
    match prev with
    | some a => (st, a)
    | none =>
        let a : ActionRow :=
          { id := st.nextActionId, source_uid := source_uid, sink_uid := sink_uid,
            type := type, cause := Cause.external, status := ActionStatus.done,
            cause_uid := none, updatedAt := now }
        ({ st with actions := st.actions ++ [a], nextActionId := st.nextActionId + 1 }, a)
  let st1 := stAct.1
  let a := stAct.2
  match a.type with
  | ActionType.block =>
      let row : AnnotatedBlockRow :=
        { source_uid := a.source_uid, sink_uid := a.sink_uid, actionId := a.id,
          shared := a.cause == Cause.external }
      ({ st1 with annotatedBlocks := upsertAnnotatedBlock row st1.annotatedBlocks },
        Except.ok a)
  | ActionType.unblock =>
      let remaining := st1.annotatedBlocks.filter
        (fun b => !(b.source_uid == a.source_uid && b.sink_uid == a.sink_uid))
      ({ st1 with annotatedBlocks := remaining }, Except.ok a)
  | ActionType.otherType _ => (st1, Except.error "Non-block/unblock passed to recordAction")

/-- Model of the lodash difference of two arrays of strings: keeps the
elements of the first array (order and duplicates preserved) that do not
occur in the second.  Lodash compares with SameValueZero, which on
strings is string equality. -/
def lodashDifference (a b : List String) : List String :=
  a.filter (fun x => decide (¬ x ∈ b))

/-- The added side of the diff: difference(current, previous). -/
def addedIds (currentIds previousIds : List String) : List String :=
  lodashDifference currentIds previousIds

/-- The removed side of the diff: difference(previous, current). -/
def removedIds (currentIds previousIds : List String) : List String :=
  lodashDifference previousIds currentIds

/-- The sink uids recorded in a given batch, in insertion order:
getBlocks followed by plucking sink_uid. -/
def batchBlockIds (st : Db) (batchId : Nat) : List String :=
  (st.blocks.filter (fun b => b.batchId == batchId)).map (fun b => b.sink_uid)

/-- A programmed response of the bulk users/lookup endpoint: a 404
(all looked-up users deactivated), any other request error, or a
success listing the uids present in the response. -/
inductive LookupResult
  | notFound
  | otherError
  | ok (present : List String)
deriving DecidableEq, Repr

/-- The callback run for one spliced-off batch of up to 100 uids in
recordUnblocksUnlessDeactivated: a 404 or any other error suppresses the
whole batch; on success every uid present in the response is recorded as
an UNBLOCK. -/
def processLookupBatch (now : Int) (source_uid : String) (uidsToQuery : List String)
    (res : LookupResult) (st : Db) : Db :=
  match res with
  | LookupResult.notFound => st
  | LookupResult.otherError => st
  | LookupResult.ok present =>
      uidsToQuery.foldl
        (fun st sink_uid =>
          if present.contains sink_uid then
            (recordAction now source_uid sink_uid ActionType.unblock st).1
          else st)
        st

/-- The while loop of recordUnblocksUnlessDeactivated, structured on a
fuel argument so that the definition reduces inside the kernel.  Each
round splices up to 100 uids off the front of the array and issues one
users/lookup request; every round shortens a nonempty array, so a fuel
equal to the initial array length never runs out. -/
def recordUnblocksLoop (now : Int) (source_uid : String) :
    Nat → List String → List LookupResult → Db → Db × List String
  | _, [], _, st => (st, [])
  | 0, sink_uids, _, st => (st, sink_uids)
  | fuel + 1, u :: us, lookups, st =>
      let uidsToQuery := (u :: us).take 100
      let rest := (u :: us).drop 100
      let res := lookups.headD LookupResult.otherError
      let st1 := processLookupBatch now source_uid uidsToQuery res st
      recordUnblocksLoop now source_uid fuel rest lookups.tail st1

/-- recordUnblocksUnlessDeactivated from src/update-blocks.js.  The
while loop splices batches of 100 uids off the front of the sink_uids
array until it is empty and issues one users/lookup request per batch;
the second component of the result is the final value of the spliced
caller-owned array.  An exhausted lookup script behaves like a failed
request (the batch is suppressed). -/
def recordUnblocksUnlessDeactivated (now : Int) (source_uid : String)
    (sink_uids : List String) (lookups : List LookupResult) (st : Db) :
    Db × List String :=
  recordUnblocksLoop now source_uid sink_uids.length sink_uids lookups st

/-- Insert a batch into a list that is sorted by id in descending
order. -/
def insertByIdDesc (b : BlockBatch) : List BlockBatch → List BlockBatch
  | [] => [b]
  | c :: rest => if c.id ≤ b.id then b :: c :: rest else c :: insertByIdDesc b rest

/-- Sort a list of batches by id in descending order (the ORDER BY
id DESC of the queries in diffBatchWithPrevious and
destroyOldBlocks). -/
def sortByIdDesc (l : List BlockBatch) : List BlockBatch :=
  l.foldr insertByIdDesc []

/-- BlockBatch.find keyed on id. -/
def findBatch (st : Db) (batchId : Nat) : Option BlockBatch :=
  st.batches.find? (fun b => b.id == batchId)

/-- diffBatchWithPrevious from src/update-blocks.js: fetch the two most
recent complete batches of the account with id up to the current batch
id, pluck their sink_uids, compute both lodash differences, record a
BLOCK action for every added id and route the removed ids through the
deactivation filter.  With fewer than two complete batches nothing is
produced. -/
def diffBatchWithPrevious (now : Int) (lookups : List LookupResult)
    (currentBatchId : Nat) (st : Db) : Db :=
  match findBatch st currentBatchId with
  | none => st
  | some currentBatch =>
      let source_uid := currentBatch.source_uid
      let sorted := sortByIdDesc (st.batches.filter
        (fun b => b.source_uid == source_uid && decide (b.id ≤ currentBatch.id) && b.complete))
      match sorted.take 2 with
      | [cur, old] =>
          let currentBlockIds := batchBlockIds st cur.id
          let oldBlockIds := batchBlockIds st old.id
          let addedBlockIds := lodashDifference currentBlockIds oldBlockIds
          let removedBlockIds := lodashDifference oldBlockIds currentBlockIds
          let st1 := addedBlockIds.foldl
            (fun st sink_uid => (recordAction now source_uid sink_uid ActionType.block st).1)
            st
          (recordUnblocksUnlessDeactivated now source_uid removedBlockIds lookups st1).1
      | _ => st

/-- destroyOldBlocks from src/update-blocks.js: find all batches of the
account ordered by id descending with OFFSET 4 and destroy them.  Note
the query does not filter on the complete flag.  Modelled from the spec:
destroying a BlockBatch also removes its Block entries (the cascading
delete lives in the schema definitions of setup.js, which is not part of
src/). -/
def destroyOldBlocks (userId : String) (st : Db) : Db :=
  let doomed := (sortByIdDesc (st.batches.filter (fun b => b.source_uid == userId))).drop 4
  let doomedIds := doomed.map (fun b => b.id)
  if doomed.length > 0 then
    { st with
      batches := st.batches.filter (fun b => !(doomedIds.contains b.id)),
      blocks := st.blocks.filter (fun b => !(doomedIds.contains b.batchId)) }
  else st

/-- Mark the batch as complete and save. -/
def sealBatch (batchId : Nat) (st : Db) : Db :=
  let sealed := st.batches.map
    (fun b => if b.id == batchId then { b with complete := true } else b)
  { st with batches := sealed }

/-- finalizeBlockBatch from src/update-blocks.js: seal the batch, run
the diff against the previous complete batch, prune old batches of the
account, and delete the activeFetches entry of the account. -/
def finalizeBlockBatch (now : Int) (lookups : List LookupResult) (batchId : Nat)
    (st : Db) : Db :=
  match findBatch st batchId with
  | none => st
  | some b =>
      let source_uid := b.source_uid
      let st1 := sealBatch batchId st
      let st2 := diffBatchWithPrevious now lookups batchId st1
      let st3 := destroyOldBlocks source_uid st2
      { st3 with active := st3.active.filter (fun p => !(p.1 == source_uid)) }

/-- Adding a uid to the TwitterUser table with ignoreDuplicates. -/
def insertIfAbsent (l : List String) (x : String) : List String :=
  if l.contains x then l else l ++ [x]

/-- handleIds from src/update-blocks.js: store the current cursor on the
batch, bump its size, upsert the returned (stringified) uids into the
TwitterUser table with ignoreDuplicates, and append one Block row per
returned uid. -/
def handleIds (batchId : Nat) (currentCursor : String) (ids : List String) (st : Db) : Db :=
  let updatedBatches := st.batches.map (fun b =>
    if b.id == batchId then
      { b with currentCursor := some currentCursor, size := b.size + ids.length }
    else b)
  { st with
    batches := updatedBatches,
    twitterUsers := ids.foldl insertIfAbsent st.twitterUsers,
    blocks := st.blocks ++ ids.map (fun id => { batchId := batchId, sink_uid := id }) }

/-- A programmed response of the blocks/ids endpoint: a page of
stringified ids with the next cursor, a 429 rate limit, or any other
request error. -/
inductive ApiResult
  | ok (ids : List String) (next_cursor_str : String)
  | rateLimited
  | otherError
deriving DecidableEq, Repr

/-- The terminal outcomes of one orchestration run: snapshot sealed,
silent abort on a rate limit before any batch was created, or abort on
any other error. -/
inductive RunOutcome
  | sealed (batchId : Nat)
  | silentAbort
  | errorAbort
deriving DecidableEq, Repr

/-- Lazily create the BlockBatch after the first successful page. -/
def createBlockBatch (user : String) (st : Db) : Db × Nat :=
  let bid := st.nextBatchId
  ({ st with
      batches := st.batches ++
        [{ id := bid, source_uid := user, size := 0, currentCursor := none, complete := false }],
      nextBatchId := bid + 1 }, bid)

/-- The recursive body of fetchAndStoreBlocks.  One script element is
consumed per blocks/ids request.  On a successful page the batch is
created if absent, handleIds runs, and either the batch is finalized
(next cursor "0") or the next cursor is fetched.  On a 429 with no
batch the run silently resolves; with a batch it retries the same
cursor after the 15 minute delay (the third component accumulates the
delayed milliseconds).  Any other error resolves the run without
finalizing.  An exhausted script behaves like a failed request. -/
def fetchAndStoreBlocksLoop (now : Int) (lookups : List LookupResult) (user : String)
    (blockBatch : Option Nat) (currentCursor : String) (script : List ApiResult)
    (st : Db) : Db × RunOutcome × Nat :=
  match script with
  | [] => (st, RunOutcome.errorAbort, 0)
  | r :: rest =>
      match r with
      | ApiResult.ok ids next_cursor_str =>
          let stBid : Db × Nat :=
            match blockBatch with
            | none => createBlockBatch user st
            | some bid => (st, bid)
          let st1 := handleIds stBid.2 currentCursor ids stBid.1
          if next_cursor_str == "0" then
            (finalizeBlockBatch now lookups stBid.2 st1, RunOutcome.sealed stBid.2, 0)
          else
            fetchAndStoreBlocksLoop now lookups user (some stBid.2) next_cursor_str rest st1
      | ApiResult.rateLimited =>
          match blockBatch with
          | none => (st, RunOutcome.silentAbort, 0)
          | some bid =>
              let out := fetchAndStoreBlocksLoop now lookups user (some bid) currentCursor rest st
              (out.1, out.2.1, out.2.2 + 15 * 60 * 1000)
      | ApiResult.otherError => (st, RunOutcome.errorAbort, 0)

/-- fetchAndStoreBlocks(user, null, null): the initial cursor argument
is null, and cursor-or-default makes the first request use "-1". -/
def fetchAndStoreBlocks (now : Int) (lookups : List LookupResult) (user : String)
    (script : List ApiResult) (st : Db) : Db × RunOutcome × Nat :=
  fetchAndStoreBlocksLoop now lookups user none "-1" script st

/-- The handle updateBlocks returns to its caller: either the promise of
a newly started orchestration run (which is also the value registered in
activeFetches) or the fresh Q.resolve(null) returned when the account
already has a pending run. -/
inductive Handle
  | runOf (runId : Nat)
  | resolvedNull
deriving DecidableEq, Repr

/-- Look up the registered in-flight run of an account in
activeFetches. -/
def lookupActive (user : String) (st : Db) : Option Nat :=
  (st.active.find? (fun p => p.1 == user)).map (fun p => p.2)

/-- The synchronous part of updateBlocks: the single-flight guard and,
when the account is not busy, the registration of the new run under the
uid of the account.  In the source the registration is the assignment
of the promise of fetchAndStoreBlocks to activeFetches[user.uid], which
happens before any response is processed. -/
def updateBlocksGuardAndRegister (user : String) (st : Db) : Db × Handle :=
  match lookupActive user st with
  | some _ => (st, Handle.resolvedNull)
  | none =>
      let rid := st.nextRunId
      ({ st with active := st.active ++ [(user, rid)], nextRunId := rid + 1 },
        Handle.runOf rid)

/-- updateBlocks(user) from src/update-blocks.js: when the account
already has a pending run the call returns Q.resolve(null) at once;
otherwise it registers and runs fetchAndStoreBlocks.  The third
component is the outcome of the run this call started, if any. -/
def updateBlocks (now : Int) (lookups : List LookupResult) (user : String)
    (script : List ApiResult) (st : Db) : Db × Handle × Option RunOutcome :=
  let g := updateBlocksGuardAndRegister user st
  match g.2 with
  | Handle.resolvedNull => (g.1, Handle.resolvedNull, none)
  | Handle.runOf rid =>
      let out := fetchAndStoreBlocks now lookups user script g.1
      (out.1, Handle.runOf rid, some out.2.1)

/-- A batch row with the given id, account and complete flag. -/
def mkBatch (id : Nat) (source_uid : String) (complete : Bool) : BlockBatch :=
  { id := id, source_uid := source_uid, size := 0, currentCursor := none,
    complete := complete }

/-- All persisted actions have cause EXTERNAL.  Rows created by
recordAction itself always satisfy this, and under it the dedup query
(which requires a cause other than EXTERNAL) never matches. -/
def allExternal (st : Db) : Prop :=
  ∀ a ∈ st.actions, a.cause = Cause.external

/-- Number of BLOCK actions recorded for a sink uid. -/
def countBlockEvents (sink_uid : String) (l : List ActionRow) : Nat :=
  l.countP (fun a => a.sink_uid == sink_uid && a.type == ActionType.block)

/-- Number of UNBLOCK actions recorded for a sink uid. -/
def countUnblockEvents (sink_uid : String) (l : List ActionRow) : Nat :=
  l.countP (fun a => a.sink_uid == sink_uid && a.type == ActionType.unblock)

/-- Number of actions of any type recorded for a (source, sink) pair. -/
def countSinkActions (source_uid sink_uid : String) (l : List ActionRow) : Nat :=
  l.countP (fun a => a.source_uid == source_uid && a.sink_uid == sink_uid)

/-- Number of UNBLOCK actions recorded for a (source, sink) pair. -/
def countSinkUnblocks (source_uid sink_uid : String) (l : List ActionRow) : Nat :=
  l.countP (fun a =>
    a.source_uid == source_uid && a.sink_uid == sink_uid
      && a.type == ActionType.unblock)

/-- The lookup response received by the spliced-off batch of 100 that
contains the uid x: the k-th batch consumes the k-th element of the
lookup script, and an id in no batch (or a batch beyond the end of the
script) has no response. -/
def batchResultForLoop (x : String) :
    Nat → List String → List LookupResult → Option LookupResult
  | _, [], _ => none
  | 0, _, _ => none
  | fuel + 1, u :: us, lookups =>
      if ((u :: us).take 100).contains x then lookups.head?
      else batchResultForLoop x fuel ((u :: us).drop 100) lookups.tail

def batchResultFor (x : String) (sink_uids : List String)
    (lookups : List LookupResult) : Option LookupResult :=
  batchResultForLoop x sink_uids.length sink_uids lookups

/-- The second script is the first with extra rate-limit responses
inserted at arbitrary positions. -/
inductive WithRateLimits : List ApiResult → List ApiResult → Prop
  | nil : WithRateLimits [] []
  | cons (r : ApiResult) {s t : List ApiResult} :
      WithRateLimits s t → WithRateLimits (r :: s) (r :: t)
  | limit {s t : List ApiResult} :
      WithRateLimits s t → WithRateLimits s (ApiResult.rateLimited :: t)

/-- n sequential sealed syncs of account "u", each consisting of a
single successfully fetched page. -/
def runSyncs : Nat → Db → Db
  | 0, st => st
  | n + 1, st => runSyncs n (updateBlocks 0 [] "u" [ApiResult.ok ["x"] "0"] st).1

/-- A store in which account "u" has four complete batches (ids 1 to 4)
and one newer incomplete batch (id 5), as left behind by a sync aborted
by a non-rate-limit error. -/
def c4Db : Db := { emptyDb with
  batches := [mkBatch 1 "u" true, mkBatch 2 "u" true, mkBatch 3 "u" true,
              mkBatch 4 "u" true, mkBatch 5 "u" false] }

/-- A store holding two complete batches for account "u" where the
current batch (id 2) contains a duplicated entry "9". -/
def c6Db : Db := { emptyDb with
  batches := [mkBatch 1 "u" true, mkBatch 2 "u" true],
  blocks := [{ batchId := 2, sink_uid := "9" }, { batchId := 2, sink_uid := "9" }] }

/-- A store holding two complete batches for account "u" with
duplicate-free entries: the previous batch (id 1) blocks "1", the
current batch (id 2) blocks "9". -/
def c6NodupDb : Db := { emptyDb with
  batches := [mkBatch 1 "u" true, mkBatch 2 "u" true],
  blocks := [{ batchId := 1, sink_uid := "1" }, { batchId := 2, sink_uid := "9" }] }

/-- A store with one existing non-EXTERNAL done BLOCK action for
(s, k), updated at time 100000. -/
def c3DedupRow : ActionRow :=
  { id := 5, source_uid := "s", sink_uid := "k", type := ActionType.block,
    cause := Cause.otherCause "subscription", status := ActionStatus.done,
    cause_uid := none, updatedAt := 100000 }

def c3DedupDb : Db := { emptyDb with actions := [c3DedupRow] }

/-- A store in which (s, 7) is currently annotated as blocked and no
actions are recorded. -/
def c9Db : Db := { emptyDb with
  annotatedBlocks := [{ source_uid := "s", sink_uid := "7", actionId := 3, shared := true }] }

/-- The Action row recordAction creates when the dedup query finds
nothing: cause EXTERNAL, status done, no cause uid. -/
def mkExternalAction (i : Nat) (source_uid sink_uid : String) (type : ActionType)
    (updatedAt : Int) : ActionRow :=
  { id := i, source_uid := source_uid, sink_uid := sink_uid, type := type,
    cause := Cause.external, status := ActionStatus.done, cause_uid := none,
    updatedAt := updatedAt }

/-! ## Theorems -/

theorem recordUnblocksLoop_drains (now : Int) (source_uid : String) :
    ∀ (fuel : Nat) (sink_uids : List String), sink_uids.length ≤ fuel →
      ∀ (lookups : List LookupResult) (st : Db),
        (recordUnblocksLoop now source_uid fuel sink_uids lookups st).2 = [] := by
  intro fuel
  induction fuel with
  | zero =>
      intro l hl lookups st
      have hnil : l = [] := List.eq_nil_of_length_eq_zero (Nat.le_zero.mp hl)
      subst hnil
      rfl
  | succ n ih =>
      intro l hl lookups st
      match l with
      | [] => rfl
      | u :: us =>
          simp only [recordUnblocksLoop]
          apply ih
          rw [List.length_drop]
          simp only [List.length_cons] at hl ⊢
          omega

/-- C10: recordUnblocksUnlessDeactivated destructively consumes the
array of removed identifiers passed to it, splicing up to 100 elements
off at a time; for every input list, the array held by the caller is
empty when the call returns. -/
theorem recordUnblocks_consumes_array (now : Int) (source_uid : String)
    (sink_uids : List String) (lookups : List LookupResult) (st : Db) :
    (recordUnblocksUnlessDeactivated now source_uid sink_uids lookups st).2 = [] :=
  recordUnblocksLoop_drains now source_uid sink_uids.length sink_uids le_rfl lookups st

/-- C8: for any two snapshots A and B of the store, the diff computed
as added = difference(current, previous) and removed =
difference(previous, current) satisfies: added(A,B) and removed(A,B)
are disjoint, and added(A,B) = removed(B,A). -/
theorem diff_added_removed_algebra (st : Db) (a b : Nat) :
    ((addedIds (batchBlockIds st a) (batchBlockIds st b)).toFinset ∩
        (removedIds (batchBlockIds st a) (batchBlockIds st b)).toFinset = ∅) ∧
    addedIds (batchBlockIds st a) (batchBlockIds st b)
      = removedIds (batchBlockIds st b) (batchBlockIds st a) := by
  constructor
  · ext x
    simp only [Finset.mem_inter, List.mem_toFinset, Finset.not_mem_empty, iff_false,
      addedIds, removedIds, lodashDifference, List.mem_filter, decide_eq_true_eq]
    tauto
  · rfl

/-- C2 counterexample: recordAction with the non-BLOCK/UNBLOCK type
"mute" on an empty store fails with the invalid-type rejection, yet one
Action row has been persisted, so the call does not leave the
persistent state unchanged. -/
theorem recordAction_invalid_type_persists_row :
    (recordAction 0 "s" "k" (ActionType.otherType "mute") emptyDb).2
        = Except.error "Non-block/unblock passed to recordAction" ∧
    (recordAction 0 "s" "k" (ActionType.otherType "mute") emptyDb).1.actions.length = 1 :=
  ⟨rfl, rfl⟩

/-- C2 amended: recordAction with a type that is neither BLOCK nor
UNBLOCK fails with the invalid-type rejection and never touches the
Annotated Entries, but it does not leave the Actions table unchanged in
general: unless the dedup query matched, a new Action row carrying the
invalid type and cause EXTERNAL has already been created when the type
check rejects. -/
theorem recordAction_invalid_type_behavior (now : Int) (source_uid sink_uid s : String)
    (st : Db) :
    (recordAction now source_uid sink_uid (ActionType.otherType s) st).2
        = Except.error "Non-block/unblock passed to recordAction" ∧
    (recordAction now source_uid sink_uid (ActionType.otherType s) st).1.annotatedBlocks
        = st.annotatedBlocks ∧
    ((recordAction now source_uid sink_uid (ActionType.otherType s) st).1 = st ∨
      (recordAction now source_uid sink_uid (ActionType.otherType s) st).1.actions
        = st.actions ++
          [{ id := st.nextActionId, source_uid := source_uid, sink_uid := sink_uid,
             type := ActionType.otherType s, cause := Cause.external,
             status := ActionStatus.done, cause_uid := none, updatedAt := now }]) := by
  rcases h : st.actions.find? (dedupMatches now source_uid sink_uid (ActionType.otherType s))
    with _ | a
  · simp [recordAction, h]
  · have hp := List.find?_some h
    simp only [dedupMatches, Bool.and_eq_true, beq_iff_eq] at hp
    obtain ⟨⟨⟨⟨⟨h1, h2⟩, h3⟩, h4⟩, h5⟩, h6⟩ := hp
    simp [recordAction, h, h3]

/-- C3 counterexample: two recordAction(s, k, BLOCK) calls 30 seconds
apart on an initially empty store create two Action rows, although the
second call lies within the 60 second dedup window of the first; the
dedup query only matches actions whose cause is not EXTERNAL, and
recordAction itself creates rows with cause EXTERNAL. -/
theorem recordAction_twice_two_rows :
    ((recordAction 30000 "s" "k" ActionType.block
        (recordAction 0 "s" "k" ActionType.block emptyDb).1).1).actions.length = 2 ∧
    ((0 : Int) > 30000 - 60 * 1000) := by
  constructor <;> decide

/-- C3 amended: the dedup is conditional on cause: when an Action with
the same (source, sink, BLOCK), status done, cause other than EXTERNAL
and updated within the trailing 60 second window exists, recordAction
returns that Action unchanged and creates no row (idempotent no-op);
calling recordAction twice does not dedup, because the row the first
call creates has cause EXTERNAL. -/
theorem recordAction_dedup_requires_nonexternal (now : Int) (source_uid sink_uid : String)
    (st : Db) (a : ActionRow)
    (h : st.actions.find? (dedupMatches now source_uid sink_uid ActionType.block) = some a) :
    (recordAction now source_uid sink_uid ActionType.block st).2 = Except.ok a ∧
    (recordAction now source_uid sink_uid ActionType.block st).1.actions = st.actions := by
  have hp := List.find?_some h
  simp only [dedupMatches, Bool.and_eq_true, beq_iff_eq] at hp
  obtain ⟨⟨⟨⟨⟨h1, h2⟩, h3⟩, h4⟩, h5⟩, h6⟩ := hp
  simp [recordAction, h, h3]

/-- C3 witness: a store holding a recent done BLOCK action for (s, k)
caused by the subscription system; recordAction within its window
returns it unchanged and creates nothing. -/
theorem recordAction_dedup_requires_nonexternal_witness :
    (recordAction 100500 "s" "k" ActionType.block c3DedupDb).2 = Except.ok c3DedupRow ∧
    (recordAction 100500 "s" "k" ActionType.block c3DedupDb).1.actions = c3DedupDb.actions :=
  recordAction_dedup_requires_nonexternal 100500 "s" "k" c3DedupDb c3DedupRow (by decide)

/-- C1 counterexample: a run that terminates with the silent rate-limit
abort, and one that terminates with the error abort, both leave the
account registered in activeFetches; only finalizeBlockBatch deletes
the registration. -/
theorem updateBlocks_abort_leaves_registration :
    (updateBlocks 0 [] "u" [ApiResult.rateLimited] emptyDb).2.2
        = some RunOutcome.silentAbort ∧
    (updateBlocks 0 [] "u" [ApiResult.rateLimited] emptyDb).1.active = [("u", 0)] ∧
    (updateBlocks 0 [] "u" [ApiResult.otherError] emptyDb).2.2
        = some RunOutcome.errorAbort ∧
    (updateBlocks 0 [] "u" [ApiResult.otherError] emptyDb).1.active = [("u", 0)] := by
  refine ⟨?_, ?_, ?_, ?_⟩ <;> decide

/-- C5 counterexample: with a run for "u" registered in activeFetches,
a second updateBlocks call returns a fresh Q.resolve(null), which is
not the registered in-flight handle. -/
theorem updateBlocks_busy_returns_fresh_null :
    lookupActive "u" (updateBlocksGuardAndRegister "u" emptyDb).1 = some 0 ∧
    (updateBlocks 0 [] "u" [ApiResult.ok ["x"] "0"]
        (updateBlocksGuardAndRegister "u" emptyDb).1).2.1 = Handle.resolvedNull ∧
    Handle.resolvedNull ≠ Handle.runOf 0 := by
  refine ⟨?_, ?_, ?_⟩ <;> decide

/-- C4 counterexample: in a store where account "u" has complete
batches 1 to 4 and a newer incomplete batch 5, batch 1 is among the 4
newest complete batches, yet the pruner deletes it: the retention query
does not filter on the complete flag. -/
theorem destroyOldBlocks_deletes_recent_complete :
    ((sortByIdDesc (c4Db.batches.filter (fun b => b.complete))).take 4).contains
        (mkBatch 1 "u" true) = true ∧
    (destroyOldBlocks "u" c4Db).batches.contains (mkBatch 1 "u" true) = false := by
  constructor <;> decide

/-- C6 counterexample: when the current batch contains the entry "9"
twice and the previous batch is empty, the diff records two BLOCK
actions for "9": the lodash difference keeps duplicates of its first
argument, so duplicates do produce phantom events. -/
theorem diff_duplicates_double_block :
    countBlockEvents "9" (diffBatchWithPrevious 0 [] 2 c6Db).actions = 2 := by
  decide

theorem find?_append_of_none {α : Type} (p : α → Bool) (l1 l2 : List α)
    (h : l1.find? p = none) : (l1 ++ l2).find? p = l2.find? p := by
  induction l1 with
  | nil => rfl
  | cons a t ih =>
      cases hpa : p a with
      | true =>
          rw [List.find?_cons_of_pos _ hpa] at h
          exact absurd h (by simp)
      | false =>
          rw [List.find?_cons_of_neg _ (by simp [hpa])] at h
          rw [List.cons_append, List.find?_cons_of_neg _ (by simp [hpa])]
          exact ih h

theorem lookupActive_of_append (user : String) (rid : Nat) (l : List (String × Nat))
    (h : l.find? (fun p => p.1 == user) = none) :
    (l ++ [(user, rid)]).find? (fun p => p.1 == user) = some (user, rid) := by
  rw [find?_append_of_none _ _ _ h]
  simp [List.find?]

theorem updateBlocks_busy (now : Int) (lookups : List LookupResult) (user : String)
    (script : List ApiResult) (st : Db) (rid : Nat)
    (h : lookupActive user st = some rid) :
    updateBlocks now lookups user script st = (st, Handle.resolvedNull, none) := by
  unfold updateBlocks updateBlocksGuardAndRegister
  rw [h]

theorem updateBlocks_fresh (now : Int) (lookups : List LookupResult) (user : String)
    (script : List ApiResult) (st : Db)
    (h : lookupActive user st = none) :
    updateBlocks now lookups user script st
      = ((fetchAndStoreBlocks now lookups user script
            (updateBlocksGuardAndRegister user st).1).1,
         Handle.runOf st.nextRunId,
         some (fetchAndStoreBlocks now lookups user script
            (updateBlocksGuardAndRegister user st).1).2.1) := by
  unfold updateBlocks updateBlocksGuardAndRegister
  rw [h]

/-- C5 amended: with no sync in flight, updateBlocks registers a fresh
run handle under the account; a second call made while that run is in
flight changes nothing, consumes no request, starts no run and returns
a promise fresh-resolved with null (not the registered handle); and
completing the first run produces exactly the state of a single
un-interleaved updateBlocks call, so two concurrent calls produce one
orchestration run and one snapshot. -/
theorem updateBlocks_single_flight (now : Int) (lookups : List LookupResult)
    (user : String) (script script2 : List ApiResult) (st : Db)
    (h : lookupActive user st = none) :
    (updateBlocksGuardAndRegister user st).2 = Handle.runOf st.nextRunId ∧
    lookupActive user (updateBlocksGuardAndRegister user st).1 = some st.nextRunId ∧
    updateBlocks now lookups user script2 (updateBlocksGuardAndRegister user st).1
      = ((updateBlocksGuardAndRegister user st).1, Handle.resolvedNull, none) ∧
    (fetchAndStoreBlocks now lookups user script (updateBlocksGuardAndRegister user st).1).1
      = (updateBlocks now lookups user script st).1 := by
  have hfind : st.active.find? (fun p => p.1 == user) = none := by
    unfold lookupActive at h
    exact Option.map_eq_none'.mp h
  have hlook : lookupActive user (updateBlocksGuardAndRegister user st).1
      = some st.nextRunId := by
    unfold updateBlocksGuardAndRegister
    rw [h]
    unfold lookupActive
    rw [lookupActive_of_append user st.nextRunId st.active hfind]
    rfl
  refine ⟨?_, hlook, ?_, ?_⟩
  · unfold updateBlocksGuardAndRegister
    rw [h]
  · exact updateBlocks_busy now lookups user script2 _ st.nextRunId hlook
  · rw [updateBlocks_fresh now lookups user script st h]

/-- C5 witness: starting from an empty store, the first call registers
handle 0; a second call while it is in flight is a no-op returning
null; the completed run equals the single-call run. -/
theorem updateBlocks_single_flight_witness :
    (updateBlocksGuardAndRegister "u" emptyDb).2 = Handle.runOf emptyDb.nextRunId ∧
    lookupActive "u" (updateBlocksGuardAndRegister "u" emptyDb).1 = some emptyDb.nextRunId ∧
    updateBlocks 0 [] "u" [ApiResult.rateLimited] (updateBlocksGuardAndRegister "u" emptyDb).1
      = ((updateBlocksGuardAndRegister "u" emptyDb).1, Handle.resolvedNull, none) ∧
    (fetchAndStoreBlocks 0 [] "u" [ApiResult.ok ["x"] "0"]
        (updateBlocksGuardAndRegister "u" emptyDb).1).1
      = (updateBlocks 0 [] "u" [ApiResult.ok ["x"] "0"] emptyDb).1 :=
  updateBlocks_single_flight 0 [] "u" [ApiResult.ok ["x"] "0"] [ApiResult.rateLimited]
    emptyDb (by decide)

theorem fetchLoop_insert_rate_limits (now : Int) (lookups : List LookupResult)
    (user : String) :
    ∀ {s t : List ApiResult}, WithRateLimits s t →
      ∀ (bid : Nat) (cursor : String) (st : Db),
        (fetchAndStoreBlocksLoop now lookups user (some bid) cursor t st).1
          = (fetchAndStoreBlocksLoop now lookups user (some bid) cursor s st).1 ∧
        (fetchAndStoreBlocksLoop now lookups user (some bid) cursor t st).2.1
          = (fetchAndStoreBlocksLoop now lookups user (some bid) cursor s st).2.1 := by
  intro s t hw
  induction hw with
  | nil => intro bid cursor st; exact ⟨rfl, rfl⟩
  | cons r hw ih =>
      intro bid cursor st
      cases r with
      | ok ids next =>
          by_cases hnext : (next == "0") = true
          · simp only [fetchAndStoreBlocksLoop, hnext, if_true]
            exact ⟨trivial, trivial⟩
          · simp only [fetchAndStoreBlocksLoop, hnext, if_false, Bool.false_eq_true]
            exact ih _ _ _
      | rateLimited =>
          simp only [fetchAndStoreBlocksLoop]
          exact ⟨(ih bid cursor st).1, (ih bid cursor st).2⟩
      | otherError => exact ⟨rfl, rfl⟩
  | limit hw ih =>
      intro bid cursor st
      simp only [fetchAndStoreBlocksLoop]
      exact ⟨(ih bid cursor st).1, (ih bid cursor st).2⟩

/-- C7: if the first page of a run succeeds (so a snapshot exists), a
run whose remaining script is interrupted by any number of rate-limit
responses produces exactly the same final store (hence the same final
entry set) and the same outcome as the uninterrupted run; moreover
every rate limit met while a snapshot exists is retried with exactly
the same cursor after the fixed 15 minute backoff. -/
theorem fetch_rate_limit_resumption (now : Int) (lookups : List LookupResult)
    (user : String) (ids : List String) (next : String) {rest rest2 : List ApiResult}
    (h : WithRateLimits rest rest2) (st : Db) :
    ((fetchAndStoreBlocks now lookups user (ApiResult.ok ids next :: rest2) st).1
        = (fetchAndStoreBlocks now lookups user (ApiResult.ok ids next :: rest) st).1 ∧
      (fetchAndStoreBlocks now lookups user (ApiResult.ok ids next :: rest2) st).2.1
        = (fetchAndStoreBlocks now lookups user (ApiResult.ok ids next :: rest) st).2.1) ∧
    (∀ (bid : Nat) (cursor : String) (script : List ApiResult) (st2 : Db),
      fetchAndStoreBlocksLoop now lookups user (some bid) cursor
          (ApiResult.rateLimited :: script) st2
        = ((fetchAndStoreBlocksLoop now lookups user (some bid) cursor script st2).1,
           (fetchAndStoreBlocksLoop now lookups user (some bid) cursor script st2).2.1,
           (fetchAndStoreBlocksLoop now lookups user (some bid) cursor script st2).2.2
             + 15 * 60 * 1000)) := by
  constructor
  · unfold fetchAndStoreBlocks
    by_cases hnext : (next == "0") = true
    · simp only [fetchAndStoreBlocksLoop, hnext, if_true]
      exact ⟨trivial, trivial⟩
    · simp only [fetchAndStoreBlocksLoop, hnext, if_false, Bool.false_eq_true]
      exact fetchLoop_insert_rate_limits now lookups user h _ _ _
  · intro bid cursor script st2
    rfl

/-- C7 witness: one successful page, then a rate limit inserted before
the final page: same final store and outcome as the uninterrupted
run. -/
theorem fetch_rate_limit_resumption_witness :
    ((fetchAndStoreBlocks 0 [] "u"
          [ApiResult.ok ["a"] "5", ApiResult.rateLimited, ApiResult.ok ["b"] "0"] emptyDb).1
        = (fetchAndStoreBlocks 0 [] "u"
            [ApiResult.ok ["a"] "5", ApiResult.ok ["b"] "0"] emptyDb).1 ∧
      (fetchAndStoreBlocks 0 [] "u"
          [ApiResult.ok ["a"] "5", ApiResult.rateLimited, ApiResult.ok ["b"] "0"] emptyDb).2.1
        = (fetchAndStoreBlocks 0 [] "u"
            [ApiResult.ok ["a"] "5", ApiResult.ok ["b"] "0"] emptyDb).2.1) ∧
    (∀ (bid : Nat) (cursor : String) (script : List ApiResult) (st2 : Db),
      fetchAndStoreBlocksLoop 0 [] "u" (some bid) cursor
          (ApiResult.rateLimited :: script) st2
        = ((fetchAndStoreBlocksLoop 0 [] "u" (some bid) cursor script st2).1,
           (fetchAndStoreBlocksLoop 0 [] "u" (some bid) cursor script st2).2.1,
           (fetchAndStoreBlocksLoop 0 [] "u" (some bid) cursor script st2).2.2
             + 15 * 60 * 1000)) :=
  fetch_rate_limit_resumption 0 [] "u" ["a"] "5"
    (WithRateLimits.limit (WithRateLimits.cons (ApiResult.ok ["b"] "0") WithRateLimits.nil))
    emptyDb

theorem insertByIdDesc_perm (b : BlockBatch) (l : List BlockBatch) :
    List.Perm (insertByIdDesc b l) (b :: l) := by
  induction l with
  | nil => exact List.Perm.refl _
  | cons c rest ih =>
      by_cases hc : c.id ≤ b.id
      · simp only [insertByIdDesc, if_pos hc]
        exact List.Perm.refl _
      · simp only [insertByIdDesc, if_neg hc]
        exact (List.Perm.cons c ih).trans (List.Perm.swap b c rest)

theorem sortByIdDesc_perm (l : List BlockBatch) : List.Perm (sortByIdDesc l) l := by
  induction l with
  | nil => exact List.Perm.refl _
  | cons b rest ih =>
      exact (insertByIdDesc_perm b (sortByIdDesc rest)).trans (List.Perm.cons b ih)

theorem contains_nat_iff (l : List Nat) (x : Nat) : l.contains x = true ↔ x ∈ l := by
  simp

/-- C4 amended: the pruner retains, per account, exactly the 4 newest
batches ordered by id descending regardless of the complete flag (the
retention query does not filter on completeness): every batch among the
4 newest survives and every older batch of the account is deleted
together with its Block entries.  In particular, after 6 sequential
sealed syncs of one account exactly the 4 newest snapshots (ids 3 to 6)
remain and the oldest 2 are gone with their entries. -/
theorem destroyOldBlocks_retains_newest_four (userId : String) (st : Db)
    (hids : (st.batches.map (fun b => b.id)).Nodup) :
    (∀ b ∈ (sortByIdDesc (st.batches.filter (fun b => b.source_uid == userId))).take 4,
        b ∈ (destroyOldBlocks userId st).batches) ∧
    (∀ b ∈ (sortByIdDesc (st.batches.filter (fun b => b.source_uid == userId))).drop 4,
        b ∉ (destroyOldBlocks userId st).batches ∧
        ∀ blk ∈ (destroyOldBlocks userId st).blocks, blk.batchId ≠ b.id) ∧
    ((runSyncs 6 emptyDb).batches.map (fun b => b.id) = [3, 4, 5, 6] ∧
      (runSyncs 6 emptyDb).blocks.all (fun blk => decide (3 ≤ blk.batchId)) = true) := by
  have hsub : List.Sublist
      ((st.batches.filter (fun b => b.source_uid == userId)).map (fun b => b.id))
      (st.batches.map (fun b => b.id)) :=
    (List.filter_sublist _).map _
  have hnodupFilter :
      ((st.batches.filter (fun b => b.source_uid == userId)).map (fun b => b.id)).Nodup :=
    List.Nodup.sublist hsub hids
  have hperm : List.Perm
      ((sortByIdDesc (st.batches.filter (fun b => b.source_uid == userId))).map
        (fun b => b.id))
      ((st.batches.filter (fun b => b.source_uid == userId)).map (fun b => b.id)) :=
    (sortByIdDesc_perm _).map _
  have hnodupSorted :
      ((sortByIdDesc (st.batches.filter (fun b => b.source_uid == userId))).map
        (fun b => b.id)).Nodup :=
    hperm.nodup_iff.mpr hnodupFilter
  have hsplit :
      (sortByIdDesc (st.batches.filter (fun b => b.source_uid == userId))).map
          (fun b => b.id)
        = ((sortByIdDesc (st.batches.filter (fun b => b.source_uid == userId))).take 4).map
            (fun b => b.id)
          ++ ((sortByIdDesc (st.batches.filter (fun b => b.source_uid == userId))).drop 4).map
            (fun b => b.id) := by
    rw [← List.map_append, List.take_append_drop]
  have hdisj :
      ∀ x ∈ ((sortByIdDesc (st.batches.filter (fun b => b.source_uid == userId))).take 4).map
          (fun b => b.id),
        x ∉ ((sortByIdDesc (st.batches.filter (fun b => b.source_uid == userId))).drop 4).map
          (fun b => b.id) := by
    rw [hsplit] at hnodupSorted
    exact fun x hx => (List.nodup_append.mp hnodupSorted).2.2 hx
  refine ⟨?_, ?_, by decide, by decide⟩
  · intro b hb
    have hmem : b ∈ st.batches := by
      have h1 : b ∈ sortByIdDesc (st.batches.filter (fun b => b.source_uid == userId)) :=
        List.mem_of_mem_take hb
      have h2 : b ∈ st.batches.filter (fun b => b.source_uid == userId) :=
        (sortByIdDesc_perm _).mem_iff.mp h1
      exact List.mem_of_mem_filter h2
    have hnid : b.id ∉ ((sortByIdDesc
        (st.batches.filter (fun b => b.source_uid == userId))).drop 4).map (fun b => b.id) :=
      hdisj b.id (List.mem_map_of_mem _ hb)
    unfold destroyOldBlocks
    simp only []
    split
    · refine List.mem_filter.mpr ⟨hmem, ?_⟩
      simp only [Bool.not_eq_true']
      rw [← Bool.not_eq_true]
      intro hcon
      exact hnid ((contains_nat_iff _ _).mp hcon)
    · exact hmem
  · intro b hb
    have hid : b.id ∈ ((sortByIdDesc
        (st.batches.filter (fun b => b.source_uid == userId))).drop 4).map (fun b => b.id) :=
      List.mem_map_of_mem _ hb
    have hpos : ((sortByIdDesc
        (st.batches.filter (fun b => b.source_uid == userId))).drop 4).length > 0 :=
      List.length_pos.mpr (List.ne_nil_of_mem hb)
    constructor
    · intro hcon
      unfold destroyOldBlocks at hcon
      simp only [] at hcon
      rw [if_pos hpos] at hcon
      have h2 := (List.mem_filter.mp hcon).2
      simp only [Bool.not_eq_true'] at h2
      exact absurd ((contains_nat_iff _ _).mpr hid) (by rw [h2]; exact Bool.false_ne_true)
    · intro blk hblk
      unfold destroyOldBlocks at hblk
      simp only [] at hblk
      rw [if_pos hpos] at hblk
      have h2 := (List.mem_filter.mp hblk).2
      simp only [Bool.not_eq_true'] at h2
      intro heq
      rw [heq] at h2
      exact absurd ((contains_nat_iff _ _).mpr hid) (by rw [h2]; exact Bool.false_ne_true)

/-- C4 witness: in the store where account "u" has complete batches 1
to 4 and an incomplete batch 5, the pruner keeps the 4 newest batches
(2, 3, 4, 5) and deletes batch 1 with its entries; 6 sequential sealed
syncs leave exactly batches 3 to 6. -/
theorem destroyOldBlocks_retains_newest_four_witness :
    (∀ b ∈ (sortByIdDesc (c4Db.batches.filter (fun b => b.source_uid == "u"))).take 4,
        b ∈ (destroyOldBlocks "u" c4Db).batches) ∧
    (∀ b ∈ (sortByIdDesc (c4Db.batches.filter (fun b => b.source_uid == "u"))).drop 4,
        b ∉ (destroyOldBlocks "u" c4Db).batches ∧
        ∀ blk ∈ (destroyOldBlocks "u" c4Db).blocks, blk.batchId ≠ b.id) ∧
    ((runSyncs 6 emptyDb).batches.map (fun b => b.id) = [3, 4, 5, 6] ∧
      (runSyncs 6 emptyDb).blocks.all (fun blk => decide (3 ≤ blk.batchId)) = true) :=
  destroyOldBlocks_retains_newest_four "u" c4Db (by decide)

theorem recordAction_active (now : Int) (source_uid sink_uid : String)
    (type : ActionType) (st : Db) :
    (recordAction now source_uid sink_uid type st).1.active = st.active := by
  simp only [recordAction]
  cases h : st.actions.find? (dedupMatches now source_uid sink_uid type) with
  | none => cases type <;> rfl
  | some a => cases ha : a.type <;> rfl

theorem foldl_active_preserved {α : Type} (g : Db → α → Db)
    (hg : ∀ st x, (g st x).active = st.active) (l : List α) (st : Db) :
    (l.foldl g st).active = st.active := by
  induction l generalizing st with
  | nil => rfl
  | cons a t ih => rw [List.foldl_cons, ih, hg]

theorem processLookupBatch_active (now : Int) (source_uid : String)
    (uids : List String) (res : LookupResult) (st : Db) :
    (processLookupBatch now source_uid uids res st).active = st.active := by
  cases res with
  | notFound => rfl
  | otherError => rfl
  | ok present =>
      apply foldl_active_preserved
      intro st2 x
      by_cases hx : present.contains x = true
      · simp only [processLookupBatch, hx, if_true]
        exact recordAction_active now source_uid x ActionType.unblock st2
      · simp only [processLookupBatch, hx, if_false]
        simp [hx]

theorem recordUnblocksLoop_active (now : Int) (source_uid : String) :
    ∀ (fuel : Nat) (uids : List String) (lookups : List LookupResult) (st : Db),
      (recordUnblocksLoop now source_uid fuel uids lookups st).1.active = st.active := by
  intro fuel
  induction fuel with
  | zero => intro uids lookups st; cases uids <;> rfl
  | succ n ih =>
      intro uids lookups st
      cases uids with
      | nil => rfl
      | cons u us =>
          simp only [recordUnblocksLoop]
          rw [ih, processLookupBatch_active]

theorem diffBatchWithPrevious_active (now : Int) (lookups : List LookupResult)
    (bid : Nat) (st : Db) :
    (diffBatchWithPrevious now lookups bid st).active = st.active := by
  simp only [diffBatchWithPrevious]
  split
  · rfl
  · split
    · unfold recordUnblocksUnlessDeactivated
      rw [recordUnblocksLoop_active]
      exact foldl_active_preserved _
        (fun st2 x => recordAction_active now _ x ActionType.block st2) _ _
    · rfl

theorem destroyOldBlocks_active (userId : String) (st : Db) :
    (destroyOldBlocks userId st).active = st.active := by
  simp only [destroyOldBlocks]
  split <;> rfl

theorem finalizeBlockBatch_active (now : Int) (lookups : List LookupResult)
    (bid : Nat) (st : Db) (b : BlockBatch) (hf : findBatch st bid = some b) :
    (finalizeBlockBatch now lookups bid st).active
      = st.active.filter (fun p => !(p.1 == b.source_uid)) := by
  unfold finalizeBlockBatch
  rw [hf]
  show ((destroyOldBlocks b.source_uid
      (diffBatchWithPrevious now lookups bid (sealBatch bid st))).active.filter
        (fun p => !(p.1 == b.source_uid)))
    = st.active.filter (fun p => !(p.1 == b.source_uid))
  rw [destroyOldBlocks_active, diffBatchWithPrevious_active]
  rfl

theorem find?_map_of_pred_invariant {α : Type} (p : α → Bool) (f : α → α)
    (hf : ∀ x, p (f x) = p x) (l : List α) :
    (l.map f).find? p = (l.find? p).map f := by
  induction l with
  | nil => rfl
  | cons a t ih =>
      cases hpa : p a with
      | true =>
          rw [List.map_cons, List.find?_cons_of_pos _ (by rw [hf]; exact hpa),
            List.find?_cons_of_pos _ hpa]
          rfl
      | false =>
          rw [List.map_cons, List.find?_cons_of_neg _ (by simp [hf, hpa]),
            List.find?_cons_of_neg _ (by simp [hpa]), ih]

theorem findBatch_handleIds (bid bid2 : Nat) (cursor : String) (ids : List String)
    (st : Db) :
    findBatch (handleIds bid2 cursor ids st) bid
      = (findBatch st bid).map (fun b =>
          if b.id == bid2
          then { b with currentCursor := some cursor, size := b.size + ids.length }
          else b) := by
  unfold findBatch handleIds
  exact find?_map_of_pred_invariant _ _
    (fun x => by by_cases h : (x.id == bid2) = true <;> simp [h]) _

theorem findBatch_createBlockBatch (user : String) (st : Db)
    (hfresh : ∀ b ∈ st.batches, b.id < st.nextBatchId) :
    findBatch (createBlockBatch user st).1 (createBlockBatch user st).2
      = some { id := st.nextBatchId, source_uid := user, size := 0,
               currentCursor := none, complete := false } := by
  unfold createBlockBatch findBatch
  rw [find?_append_of_none]
  · simp [List.find?]
  · apply List.find?_eq_none.mpr
    intro b hb
    have hlt := hfresh b hb
    simp only [beq_iff_eq]
    omega

theorem createBlockBatch_fresh (user : String) (st : Db)
    (h : ∀ b ∈ st.batches, b.id < st.nextBatchId) :
    ∀ b ∈ (createBlockBatch user st).1.batches,
      b.id < (createBlockBatch user st).1.nextBatchId := by
  intro b hb
  unfold createBlockBatch at hb ⊢
  simp only [List.mem_append, List.mem_singleton] at hb
  rcases hb with hb | rfl
  · have := h b hb
    simp only []
    omega
  · simp

theorem handleIds_fresh (bid : Nat) (cursor : String) (ids : List String) (st : Db)
    (h : ∀ b ∈ st.batches, b.id < st.nextBatchId) :
    ∀ b ∈ (handleIds bid cursor ids st).batches,
      b.id < (handleIds bid cursor ids st).nextBatchId := by
  intro b hb
  unfold handleIds at hb ⊢
  simp only [List.mem_map] at hb
  obtain ⟨x, hx, rfl⟩ := hb
  by_cases hxb : (x.id == bid) = true
  · simpa [hxb] using h x hx
  · simpa [hxb] using h x hx

theorem fetchLoop_active (now : Int) (lookups : List LookupResult) (user : String) :
    ∀ (script : List ApiResult) (blockBatch : Option Nat) (cursor : String) (st : Db),
      (∀ b ∈ st.batches, b.id < st.nextBatchId) →
      (∀ bid, blockBatch = some bid →
          ∃ b, findBatch st bid = some b ∧ b.source_uid = user) →
      (((fetchAndStoreBlocksLoop now lookups user blockBatch cursor script st).2.1
            = RunOutcome.silentAbort ∨
          (fetchAndStoreBlocksLoop now lookups user blockBatch cursor script st).2.1
            = RunOutcome.errorAbort) →
        (fetchAndStoreBlocksLoop now lookups user blockBatch cursor script st).1.active
          = st.active) ∧
      (∀ bid2, (fetchAndStoreBlocksLoop now lookups user blockBatch cursor script st).2.1
            = RunOutcome.sealed bid2 →
        (fetchAndStoreBlocksLoop now lookups user blockBatch cursor script st).1.active
          = st.active.filter (fun p => !(p.1 == user))) := by
  intro script
  induction script with
  | nil =>
      intro blockBatch cursor st hfresh hinv
      exact ⟨fun _ => rfl, fun bid2 h => nomatch h⟩
  | cons r rest ih =>
      intro blockBatch cursor st hfresh hinv
      cases r with
      | rateLimited =>
          cases blockBatch with
          | none => exact ⟨fun _ => rfl, fun bid2 h => nomatch h⟩
          | some bid => exact ih (some bid) cursor st hfresh hinv
      | otherError =>
          exact ⟨fun _ => rfl, fun bid2 h => nomatch h⟩
      | ok ids next =>
          cases blockBatch with
          | none =>
              have hfind1 : ∃ b,
                  findBatch (handleIds (createBlockBatch user st).2 cursor ids
                      (createBlockBatch user st).1) (createBlockBatch user st).2
                    = some b ∧ b.source_uid = user := by
                simp only [findBatch_handleIds, findBatch_createBlockBatch user st hfresh,
                  Option.map_some']
                refine ⟨_, rfl, ?_⟩
                split <;> rfl
              by_cases hnext : (next == "0") = true
              · have hstep : fetchAndStoreBlocksLoop now lookups user none cursor
                    (ApiResult.ok ids next :: rest) st
                    = (finalizeBlockBatch now lookups (createBlockBatch user st).2
                        (handleIds (createBlockBatch user st).2 cursor ids
                          (createBlockBatch user st).1),
                       RunOutcome.sealed (createBlockBatch user st).2, 0) := by
                  simp only [fetchAndStoreBlocksLoop]
                  rw [if_pos hnext]
                rw [hstep]
                obtain ⟨b, hb, hbsrc⟩ := hfind1
                refine ⟨fun h => ?_, fun bid2 h => ?_⟩
                · rcases h with h | h <;> exact nomatch h
                · show (finalizeBlockBatch now lookups (createBlockBatch user st).2
                      (handleIds (createBlockBatch user st).2 cursor ids
                        (createBlockBatch user st).1)).active
                    = st.active.filter (fun p => !(p.1 == user))
                  rw [finalizeBlockBatch_active now lookups _ _ b hb, hbsrc]
                  rfl
              · have hstep : fetchAndStoreBlocksLoop now lookups user none cursor
                    (ApiResult.ok ids next :: rest) st
                    = fetchAndStoreBlocksLoop now lookups user
                        (some (createBlockBatch user st).2) next rest
                        (handleIds (createBlockBatch user st).2 cursor ids
                          (createBlockBatch user st).1) := by
                  simp only [fetchAndStoreBlocksLoop]
                  rw [if_neg hnext]
                rw [hstep]
                refine ih _ next _
                  (handleIds_fresh _ _ _ _ (createBlockBatch_fresh user st hfresh)) ?_
                intro bid hbid
                injection hbid with hbid
                subst hbid
                exact hfind1
          | some bid =>
              obtain ⟨b0, hb0, hb0src⟩ := hinv bid rfl
              have hfind1 : ∃ b,
                  findBatch (handleIds bid cursor ids st) bid = some b ∧
                    b.source_uid = user := by
                simp only [findBatch_handleIds, hb0, Option.map_some']
                refine ⟨_, rfl, ?_⟩
                split
                · exact hb0src
                · exact hb0src
              by_cases hnext : (next == "0") = true
              · have hstep : fetchAndStoreBlocksLoop now lookups user (some bid) cursor
                    (ApiResult.ok ids next :: rest) st
                    = (finalizeBlockBatch now lookups bid (handleIds bid cursor ids st),
                       RunOutcome.sealed bid, 0) := by
                  simp only [fetchAndStoreBlocksLoop]
                  rw [if_pos hnext]
                rw [hstep]
                obtain ⟨b, hb, hbsrc⟩ := hfind1
                refine ⟨fun h => ?_, fun bid2 h => ?_⟩
                · rcases h with h | h <;> exact nomatch h
                · show (finalizeBlockBatch now lookups bid
                      (handleIds bid cursor ids st)).active
                    = st.active.filter (fun p => !(p.1 == user))
                  rw [finalizeBlockBatch_active now lookups _ _ b hb, hbsrc]
                  rfl
              · have hstep : fetchAndStoreBlocksLoop now lookups user (some bid) cursor
                    (ApiResult.ok ids next :: rest) st
                    = fetchAndStoreBlocksLoop now lookups user (some bid) next rest
                        (handleIds bid cursor ids st) := by
                  simp only [fetchAndStoreBlocksLoop]
                  rw [if_neg hnext]
                rw [hstep]
                refine ih _ next _ (handleIds_fresh _ _ _ _ hfresh) ?_
                intro bid2 hbid
                injection hbid with hbid
                subst hbid
                exact hfind1

theorem find?_filter_not {α : Type} (p : α → Bool) (l : List α) :
    (l.filter (fun x => !(p x))).find? p = none := by
  apply List.find?_eq_none.mpr
  intro x hx
  have hmem := (List.mem_filter.mp hx).2
  simp only [Bool.not_eq_true'] at hmem
  simp [hmem]

/-- C1 amended: starting a sync for an account with no sync in flight,
the in-flight registration is removed only when the run terminates by
sealing the snapshot; when the run terminates with the silent
rate-limit abort or with any other request failure, the run resolves
but the account stays registered in activeFetches (it remains marked
busy until a successful finalize deletes the entry). -/
theorem updateBlocks_registration_release (now : Int) (lookups : List LookupResult)
    (user : String) (script : List ApiResult) (st : Db)
    (hfresh : ∀ b ∈ st.batches, b.id < st.nextBatchId)
    (h : lookupActive user st = none) :
    (∀ bid, (updateBlocks now lookups user script st).2.2 = some (RunOutcome.sealed bid) →
        lookupActive user (updateBlocks now lookups user script st).1 = none) ∧
    (((updateBlocks now lookups user script st).2.2 = some RunOutcome.silentAbort ∨
        (updateBlocks now lookups user script st).2.2 = some RunOutcome.errorAbort) →
      lookupActive user (updateBlocks now lookups user script st).1 = some st.nextRunId) := by
  have hfind : st.active.find? (fun p => p.1 == user) = none := by
    unfold lookupActive at h
    exact Option.map_eq_none'.mp h
  have hguard : updateBlocksGuardAndRegister user st = ({ st with active := st.active ++ [(user, st.nextRunId)], nextRunId := st.nextRunId + 1 }, Handle.runOf st.nextRunId) := by
    unfold updateBlocksGuardAndRegister
    rw [h]
  have hfreshR : ∀ b ∈ (updateBlocksGuardAndRegister user st).1.batches,
      b.id < (updateBlocksGuardAndRegister user st).1.nextBatchId := by
    rw [hguard]
    exact hfresh
  have key := fetchLoop_active now lookups user script none "-1"
      (updateBlocksGuardAndRegister user st).1 hfreshR (fun bid hbid => nomatch hbid)
  have hRactive : (updateBlocksGuardAndRegister user st).1.active
      = st.active ++ [(user, st.nextRunId)] := by
    rw [hguard]
  rw [updateBlocks_fresh now lookups user script st h]
  unfold fetchAndStoreBlocks
  constructor
  · intro bid hbid
    have houtcome := Option.some.inj hbid
    unfold lookupActive
    rw [key.2 bid houtcome, hRactive, List.filter_append]
    have hsingle : List.filter (fun p => !(p.1 == user)) [(user, st.nextRunId)] = [] := by
      simp
    rw [hsingle, List.append_nil]
    have hall : List.filter (fun p => !(p.1 == user)) st.active = st.active := by
      apply List.filter_eq_self.mpr
      intro p hp
      have := List.find?_eq_none.mp hfind p hp
      simpa using this
    rw [hall, hfind]
    rfl
  · intro hor
    have houtcome : (fetchAndStoreBlocksLoop now lookups user none "-1" script
          (updateBlocksGuardAndRegister user st).1).2.1 = RunOutcome.silentAbort ∨
        (fetchAndStoreBlocksLoop now lookups user none "-1" script
          (updateBlocksGuardAndRegister user st).1).2.1 = RunOutcome.errorAbort := by
      rcases hor with hh | hh
      · exact Or.inl (Option.some.inj hh)
      · exact Or.inr (Option.some.inj hh)
    unfold lookupActive
    rw [key.1 houtcome, hRactive, lookupActive_of_append user st.nextRunId st.active hfind]
    rfl

/-- C1 witness: from an empty store, a run answered by a rate limit
before any page succeeded resolves with the silent abort and leaves
account "u" registered under run id 0. -/
theorem updateBlocks_registration_release_witness :
    (∀ bid, (updateBlocks 0 [] "u" [ApiResult.rateLimited] emptyDb).2.2
          = some (RunOutcome.sealed bid) →
        lookupActive "u" (updateBlocks 0 [] "u" [ApiResult.rateLimited] emptyDb).1 = none) ∧
    (((updateBlocks 0 [] "u" [ApiResult.rateLimited] emptyDb).2.2
          = some RunOutcome.silentAbort ∨
        (updateBlocks 0 [] "u" [ApiResult.rateLimited] emptyDb).2.2
          = some RunOutcome.errorAbort) →
      lookupActive "u" (updateBlocks 0 [] "u" [ApiResult.rateLimited] emptyDb).1
        = some emptyDb.nextRunId) :=
  updateBlocks_registration_release 0 [] "u" [ApiResult.rateLimited] emptyDb
    (by decide) (by decide)

theorem recordAction_actions_cases (now : Int) (source_uid sink_uid : String)
    (type : ActionType) (st : Db) :
    (recordAction now source_uid sink_uid type st).1.actions = st.actions ∨
    (recordAction now source_uid sink_uid type st).1.actions
      = st.actions ++ [mkExternalAction st.nextActionId source_uid sink_uid type now] := by
  simp only [recordAction]
  cases h : st.actions.find? (dedupMatches now source_uid sink_uid type) with
  | none =>
      right
      cases type <;> rfl
  | some a =>
      left
      cases ha : a.type <;> rfl

theorem find?_dedup_none_of_allExternal (now : Int) (source_uid sink_uid : String)
    (type : ActionType) (st : Db) (h : allExternal st) :
    st.actions.find? (dedupMatches now source_uid sink_uid type) = none := by
  apply List.find?_eq_none.mpr
  intro a ha
  simp [dedupMatches, h a ha]

theorem recordAction_actions_of_allExternal (now : Int) (source_uid sink_uid : String)
    (type : ActionType) (st : Db) (h : allExternal st) :
    (recordAction now source_uid sink_uid type st).1.actions
      = st.actions ++ [mkExternalAction st.nextActionId source_uid sink_uid type now] := by
  simp only [recordAction,
    find?_dedup_none_of_allExternal now source_uid sink_uid type st h]
  cases type <;> rfl

theorem recordAction_allExternal (now : Int) (source_uid sink_uid : String)
    (type : ActionType) (st : Db) (h : allExternal st) :
    allExternal (recordAction now source_uid sink_uid type st).1 := by
  intro a ha
  rcases recordAction_actions_cases now source_uid sink_uid type st with hc | hc
  · rw [hc] at ha
    exact h a ha
  · rw [hc] at ha
    rcases List.mem_append.mp ha with ha | ha
    · exact h a ha
    · rw [List.mem_singleton] at ha
      rw [ha]
      rfl

theorem recordAction_countP_le (p : ActionRow → Bool) (now : Int)
    (source_uid sink_uid : String) (type : ActionType) (st : Db) :
    (recordAction now source_uid sink_uid type st).1.actions.countP p
      ≤ st.actions.countP p + 1 := by
  rcases recordAction_actions_cases now source_uid sink_uid type st with hc | hc <;> rw [hc]
  · omega
  · rw [List.countP_append]
    have : List.countP p [mkExternalAction st.nextActionId source_uid sink_uid type now]
        ≤ 1 := by
      rw [List.countP_cons, List.countP_nil]
      split <;> omega
    omega

theorem recordAction_countP_eq (p : ActionRow → Bool) (now : Int)
    (source_uid sink_uid : String) (type : ActionType) (st : Db)
    (hp : ∀ i u, p (mkExternalAction i source_uid sink_uid type u) = false) :
    (recordAction now source_uid sink_uid type st).1.actions.countP p
      = st.actions.countP p := by
  rcases recordAction_actions_cases now source_uid sink_uid type st with hc | hc <;> rw [hc]
  rw [List.countP_append, List.countP_cons, List.countP_nil, hp]
  simp

theorem recordAction_countP_add_of_allExternal (p : ActionRow → Bool) (now : Int)
    (source_uid sink_uid : String) (type : ActionType) (st : Db) (h : allExternal st)
    (hp : ∀ i u, p (mkExternalAction i source_uid sink_uid type u) = true) :
    (recordAction now source_uid sink_uid type st).1.actions.countP p
      = st.actions.countP p + 1 := by
  rw [recordAction_actions_of_allExternal now source_uid sink_uid type st h,
    List.countP_append, List.countP_cons, List.countP_nil, hp]
  simp

theorem recordAction_unblock_annotated (now : Int) (source_uid sink_uid : String)
    (st : Db) :
    (recordAction now source_uid sink_uid ActionType.unblock st).1.annotatedBlocks
      = st.annotatedBlocks.filter
          (fun b => !(b.source_uid == source_uid && b.sink_uid == sink_uid)) := by
  simp only [recordAction]
  cases h : st.actions.find? (dedupMatches now source_uid sink_uid ActionType.unblock) with
  | none => rfl
  | some a =>
      have hp := List.find?_some h
      simp only [dedupMatches, Bool.and_eq_true, beq_iff_eq] at hp
      obtain ⟨⟨⟨⟨⟨h1, h2⟩, h3⟩, h4⟩, h5⟩, h6⟩ := hp
      rw [h3, h1, h2]

theorem foldl_annotated_subset {α : Type} (g : Db → α → Db)
    (hg : ∀ st x, ∀ b ∈ (g st x).annotatedBlocks, b ∈ st.annotatedBlocks)
    (l : List α) (st : Db) :
    ∀ b ∈ (l.foldl g st).annotatedBlocks, b ∈ st.annotatedBlocks := by
  induction l generalizing st with
  | nil => intro b hb; exact hb
  | cons a t ih => intro b hb; exact hg st a b (ih (g st a) b hb)

theorem mem_batches_of_take_two {st : Db} {p : BlockBatch → Bool}
    {cur old : BlockBatch}
    (h : (sortByIdDesc (st.batches.filter p)).take 2 = [cur, old]) :
    cur ∈ st.batches ∧ old ∈ st.batches := by
  have hsub : ∀ c, c ∈ [cur, old] → c ∈ st.batches := by
    intro c hc
    rw [← h] at hc
    have h1 : c ∈ sortByIdDesc (st.batches.filter p) := List.mem_of_mem_take hc
    have h2 : c ∈ st.batches.filter p := (sortByIdDesc_perm _).mem_iff.mp h1
    exact List.mem_of_mem_filter h2
  exact ⟨hsub cur (List.mem_cons_self _ _),
    hsub old (List.mem_cons_of_mem _ (List.mem_cons_self _ _))⟩

theorem diff_fold_countBlock_le (x : String) (now : Int) (source_uid : String) :
    ∀ (l : List String) (st : Db),
      countBlockEvents x ((l.foldl (fun st sink_uid =>
          (recordAction now source_uid sink_uid ActionType.block st).1) st).actions)
        ≤ countBlockEvents x st.actions + l.count x := by
  intro l
  induction l with
  | nil => intro st; simp
  | cons a t ih =>
      intro st
      rw [List.foldl_cons]
      have h1 := ih ((recordAction now source_uid a ActionType.block st).1)
      by_cases hax : a = x
      · have hstep : countBlockEvents x
            (recordAction now source_uid a ActionType.block st).1.actions
            ≤ countBlockEvents x st.actions + 1 :=
          recordAction_countP_le _ now source_uid a ActionType.block st
        have hcount : (a :: t).count x = t.count x + 1 := by
          subst hax
          exact List.count_cons_self _ _
        omega
      · have hstep : countBlockEvents x
            (recordAction now source_uid a ActionType.block st).1.actions
            = countBlockEvents x st.actions :=
          recordAction_countP_eq _ now source_uid a ActionType.block st
            (fun i u => by simp [mkExternalAction]; exact hax)
        have hcount : (a :: t).count x = t.count x :=
          List.count_cons_of_ne (fun hh => hax hh.symm) _
        omega

theorem diff_fold_countUnblock_eq (x : String) (now : Int) (source_uid : String) :
    ∀ (l : List String) (st : Db),
      countUnblockEvents x ((l.foldl (fun st sink_uid =>
          (recordAction now source_uid sink_uid ActionType.block st).1) st).actions)
        = countUnblockEvents x st.actions := by
  intro l
  induction l with
  | nil => intro st; rfl
  | cons a t ih =>
      intro st
      rw [List.foldl_cons, ih]
      exact recordAction_countP_eq _ now source_uid a ActionType.block st
        (fun i u => by simp [mkExternalAction])

theorem lookup_fold_countUnblock_le (x : String) (now : Int) (source_uid : String)
    (present : List String) :
    ∀ (l : List String) (st : Db),
      countUnblockEvents x ((l.foldl (fun st sink_uid =>
          if present.contains sink_uid
          then (recordAction now source_uid sink_uid ActionType.unblock st).1
          else st) st).actions)
        ≤ countUnblockEvents x st.actions + l.count x := by
  intro l
  induction l with
  | nil => intro st; simp
  | cons a t ih =>
      intro st
      rw [List.foldl_cons]
      by_cases hpa : present.contains a = true
      · simp only [hpa, if_true]
        have h1 := ih ((recordAction now source_uid a ActionType.unblock st).1)
        by_cases hax : a = x
        · have hstep : countUnblockEvents x
              (recordAction now source_uid a ActionType.unblock st).1.actions
              ≤ countUnblockEvents x st.actions + 1 :=
            recordAction_countP_le _ now source_uid a ActionType.unblock st
          have hcount : (a :: t).count x = t.count x + 1 := by
            subst hax
            exact List.count_cons_self _ _
          omega
        · have hstep : countUnblockEvents x
              (recordAction now source_uid a ActionType.unblock st).1.actions
              = countUnblockEvents x st.actions :=
            recordAction_countP_eq _ now source_uid a ActionType.unblock st
              (fun i u => by simp [mkExternalAction]; exact hax)
          have hcount : (a :: t).count x = t.count x :=
            List.count_cons_of_ne (fun hh => hax hh.symm) _
          omega
      · rw [if_neg hpa]
        have h1 := ih st
        have hcount : t.count x ≤ (a :: t).count x := by
          by_cases hax : a = x
          · subst hax
            rw [List.count_cons_self]
            omega
          · rw [List.count_cons_of_ne (fun hh => hax hh.symm)]
        omega

theorem lookup_fold_countBlock_eq (x : String) (now : Int) (source_uid : String)
    (present : List String) :
    ∀ (l : List String) (st : Db),
      countBlockEvents x ((l.foldl (fun st sink_uid =>
          if present.contains sink_uid
          then (recordAction now source_uid sink_uid ActionType.unblock st).1
          else st) st).actions)
        = countBlockEvents x st.actions := by
  intro l
  induction l with
  | nil => intro st; rfl
  | cons a t ih =>
      intro st
      rw [List.foldl_cons, ih]
      by_cases hpa : present.contains a = true
      · simp only [hpa, if_true]
        exact recordAction_countP_eq _ now source_uid a ActionType.unblock st
          (fun i u => by simp [mkExternalAction])
      · rw [if_neg hpa]

theorem processLookupBatch_countUnblock_le (x : String) (now : Int) (source_uid : String)
    (uids : List String) (res : LookupResult) (st : Db) :
    countUnblockEvents x (processLookupBatch now source_uid uids res st).actions
      ≤ countUnblockEvents x st.actions + uids.count x := by
  cases res with
  | notFound => exact Nat.le_add_right _ _
  | otherError => exact Nat.le_add_right _ _
  | ok present => exact lookup_fold_countUnblock_le x now source_uid present uids st

theorem processLookupBatch_countBlock_eq (x : String) (now : Int) (source_uid : String)
    (uids : List String) (res : LookupResult) (st : Db) :
    countBlockEvents x (processLookupBatch now source_uid uids res st).actions
      = countBlockEvents x st.actions := by
  cases res with
  | notFound => rfl
  | otherError => rfl
  | ok present => exact lookup_fold_countBlock_eq x now source_uid present uids st

theorem count_take_add_count_drop (x : String) (l : List String) (n : Nat) :
    (l.take n).count x + (l.drop n).count x = l.count x := by
  conv_rhs => rw [← List.take_append_drop n l]
  rw [List.count_append]

theorem recordUnblocksLoop_countUnblock_le (x : String) (now : Int) (source_uid : String) :
    ∀ (fuel : Nat) (uids : List String) (lookups : List LookupResult) (st : Db),
      countUnblockEvents x
          (recordUnblocksLoop now source_uid fuel uids lookups st).1.actions
        ≤ countUnblockEvents x st.actions + uids.count x := by
  intro fuel
  induction fuel with
  | zero =>
      intro uids lookups st
      cases uids <;> exact Nat.le_add_right _ _
  | succ n ih =>
      intro uids lookups st
      cases uids with
      | nil => exact Nat.le_add_right _ _
      | cons u us =>
          simp only [recordUnblocksLoop]
          have h1 := ih ((u :: us).drop 100) lookups.tail
            (processLookupBatch now source_uid ((u :: us).take 100)
              (lookups.headD LookupResult.otherError) st)
          have h2 := processLookupBatch_countUnblock_le x now source_uid
            ((u :: us).take 100) (lookups.headD LookupResult.otherError) st
          have h3 := count_take_add_count_drop x (u :: us) 100
          omega

theorem recordUnblocksLoop_countBlock_eq (x : String) (now : Int) (source_uid : String) :
    ∀ (fuel : Nat) (uids : List String) (lookups : List LookupResult) (st : Db),
      countBlockEvents x
          (recordUnblocksLoop now source_uid fuel uids lookups st).1.actions
        = countBlockEvents x st.actions := by
  intro fuel
  induction fuel with
  | zero => intro uids lookups st; cases uids <;> rfl
  | succ n ih =>
      intro uids lookups st
      cases uids with
      | nil => rfl
      | cons u us =>
          simp only [recordUnblocksLoop]
          rw [ih, processLookupBatch_countBlock_eq]

/-- C6 amended: with duplicate-free snapshots the diff has set
semantics (at most one BLOCK action and at most one forwarded removal,
hence at most one UNBLOCK action, per identifier); but the lodash
difference preserves duplicates of its first argument, so a duplicated
entry inside a snapshot does produce duplicate events. -/
theorem diff_set_semantics_on_nodup (now : Int) (lookups : List LookupResult)
    (currentBatchId : Nat) (st : Db)
    (hnodup : ∀ b ∈ st.batches, (batchBlockIds st b.id).Nodup) (x : String) :
    countBlockEvents x (diffBatchWithPrevious now lookups currentBatchId st).actions
        ≤ countBlockEvents x st.actions + 1 ∧
    countUnblockEvents x (diffBatchWithPrevious now lookups currentBatchId st).actions
        ≤ countUnblockEvents x st.actions + 1 := by
  simp only [diffBatchWithPrevious]
  split
  · exact ⟨Nat.le_add_right _ _, Nat.le_add_right _ _⟩
  next currentBatch heq =>
    split
    next cur old heq2 =>
      obtain ⟨hcur, hold⟩ := mem_batches_of_take_two heq2
      have haddcount :
          (lodashDifference (batchBlockIds st cur.id) (batchBlockIds st old.id)).count x
            ≤ 1 :=
        List.nodup_iff_count_le_one.mp
          (List.Nodup.filter _ (hnodup cur hcur)) x
      have hremcount :
          (lodashDifference (batchBlockIds st old.id) (batchBlockIds st cur.id)).count x
            ≤ 1 :=
        List.nodup_iff_count_le_one.mp
          (List.Nodup.filter _ (hnodup old hold)) x
      constructor
      · unfold recordUnblocksUnlessDeactivated
        rw [recordUnblocksLoop_countBlock_eq]
        have hfold := diff_fold_countBlock_le x now currentBatch.source_uid
          (lodashDifference (batchBlockIds st cur.id) (batchBlockIds st old.id)) st
        omega
      · unfold recordUnblocksUnlessDeactivated
        have hloop := recordUnblocksLoop_countUnblock_le x now currentBatch.source_uid
          (lodashDifference (batchBlockIds st old.id) (batchBlockIds st cur.id)).length
          (lodashDifference (batchBlockIds st old.id) (batchBlockIds st cur.id))
          lookups
          ((lodashDifference (batchBlockIds st cur.id) (batchBlockIds st old.id)).foldl
            (fun st sink_uid =>
              (recordAction now currentBatch.source_uid sink_uid ActionType.block st).1) st)
        have hfold := diff_fold_countUnblock_eq x now currentBatch.source_uid
          (lodashDifference (batchBlockIds st cur.id) (batchBlockIds st old.id)) st
        omega
    next h2 =>
      exact ⟨Nat.le_add_right _ _, Nat.le_add_right _ _⟩

/-- C6 witness: with duplicate-free snapshots (previous blocks "1",
current blocks "9") the diff records at most one BLOCK and at most one
UNBLOCK action per id. -/
theorem diff_set_semantics_on_nodup_witness :
    countBlockEvents "9" (diffBatchWithPrevious 0 [] 2 c6NodupDb).actions
        ≤ countBlockEvents "9" c6NodupDb.actions + 1 ∧
    countUnblockEvents "9" (diffBatchWithPrevious 0 [] 2 c6NodupDb).actions
        ≤ countUnblockEvents "9" c6NodupDb.actions + 1 :=
  diff_set_semantics_on_nodup 0 [] 2 c6NodupDb (by decide) "9"

theorem lookup_step_annotated_subset (now : Int) (source_uid : String)
    (present : List String) (st : Db) (k : String) :
    ∀ b ∈ (if present.contains k
        then (recordAction now source_uid k ActionType.unblock st).1
        else st).annotatedBlocks, b ∈ st.annotatedBlocks := by
  intro b hb
  by_cases hpk : present.contains k = true
  · rw [if_pos hpk] at hb
    rw [recordAction_unblock_annotated] at hb
    exact List.mem_of_mem_filter hb
  · rw [if_neg hpk] at hb
    exact hb

theorem processLookupBatch_annotated_subset (now : Int) (source_uid : String)
    (uids : List String) (res : LookupResult) (st : Db) :
    ∀ b ∈ (processLookupBatch now source_uid uids res st).annotatedBlocks,
      b ∈ st.annotatedBlocks := by
  cases res with
  | notFound => intro b hb; exact hb
  | otherError => intro b hb; exact hb
  | ok present =>
      exact foldl_annotated_subset _
        (fun st2 k => lookup_step_annotated_subset now source_uid present st2 k) uids st

theorem recordUnblocksLoop_annotated_subset (now : Int) (source_uid : String) :
    ∀ (fuel : Nat) (uids : List String) (lookups : List LookupResult) (st : Db),
      ∀ b ∈ (recordUnblocksLoop now source_uid fuel uids lookups st).1.annotatedBlocks,
        b ∈ st.annotatedBlocks := by
  intro fuel
  induction fuel with
  | zero => intro uids lookups st b hb; cases uids <;> exact hb
  | succ n ih =>
      intro uids lookups st b hb
      cases uids with
      | nil => exact hb
      | cons u us =>
          simp only [recordUnblocksLoop] at hb
          exact processLookupBatch_annotated_subset _ _ _ _ _ b (ih _ _ _ b hb)

theorem foldl_allExternal {α : Type} (g : Db → α → Db)
    (hg : ∀ st y, allExternal st → allExternal (g st y)) :
    ∀ (l : List α) (st : Db), allExternal st → allExternal (l.foldl g st) := by
  intro l
  induction l with
  | nil => intro st h; exact h
  | cons a t ih => intro st h; exact ih _ (hg st a h)

theorem processLookupBatch_allExternal (now : Int) (source_uid : String)
    (uids : List String) (res : LookupResult) (st : Db) (h : allExternal st) :
    allExternal (processLookupBatch now source_uid uids res st) := by
  cases res with
  | notFound => exact h
  | otherError => exact h
  | ok present =>
      refine foldl_allExternal _ ?_ uids st h
      intro st2 k hext
      by_cases hpk : present.contains k = true
      · rw [if_pos hpk]
        exact recordAction_allExternal now source_uid k ActionType.unblock st2 hext
      · rw [if_neg hpk]
        exact hext

theorem recordAction_countSink_self (now : Int) (source_uid x : String) (st : Db)
    (h : allExternal st) :
    countSinkActions source_uid x
        (recordAction now source_uid x ActionType.unblock st).1.actions
      = countSinkActions source_uid x st.actions + 1 ∧
    countSinkUnblocks source_uid x
        (recordAction now source_uid x ActionType.unblock st).1.actions
      = countSinkUnblocks source_uid x st.actions + 1 :=
  ⟨recordAction_countP_add_of_allExternal _ now source_uid x ActionType.unblock st h
      (fun i u => by simp [mkExternalAction]),
    recordAction_countP_add_of_allExternal _ now source_uid x ActionType.unblock st h
      (fun i u => by simp [mkExternalAction])⟩

theorem recordAction_countSink_other (now : Int) (source_uid x k : String)
    (type : ActionType) (st : Db) (hk : ¬ k = x) :
    countSinkActions source_uid x (recordAction now source_uid k type st).1.actions
      = countSinkActions source_uid x st.actions ∧
    countSinkUnblocks source_uid x (recordAction now source_uid k type st).1.actions
      = countSinkUnblocks source_uid x st.actions :=
  ⟨recordAction_countP_eq _ now source_uid k type st
      (fun i u => by simp [mkExternalAction, hk]),
    recordAction_countP_eq _ now source_uid k type st
      (fun i u => by simp [mkExternalAction, hk])⟩

theorem lookup_fold_countSink_of_allExternal (now : Int) (source_uid x : String)
    (present : List String) :
    ∀ (l : List String) (st : Db), allExternal st →
      countSinkActions source_uid x ((l.foldl (fun st sink_uid =>
          if present.contains sink_uid
          then (recordAction now source_uid sink_uid ActionType.unblock st).1
          else st) st).actions)
        = countSinkActions source_uid x st.actions
          + (if present.contains x = true then l.count x else 0) ∧
      countSinkUnblocks source_uid x ((l.foldl (fun st sink_uid =>
          if present.contains sink_uid
          then (recordAction now source_uid sink_uid ActionType.unblock st).1
          else st) st).actions)
        = countSinkUnblocks source_uid x st.actions
          + (if present.contains x = true then l.count x else 0) := by
  intro l
  induction l with
  | nil =>
      intro st hext
      constructor <;> simp
  | cons a t ih =>
      intro st hext
      rw [List.foldl_cons]
      by_cases hpa : present.contains a = true
      · rw [if_pos hpa]
        have hih := ih ((recordAction now source_uid a ActionType.unblock st).1)
          (recordAction_allExternal now source_uid a ActionType.unblock st hext)
        obtain ⟨hih1, hih2⟩ := hih
        by_cases hax : a = x
        · subst hax
          obtain ⟨hs1, hs2⟩ := recordAction_countSink_self now source_uid a st hext
          rw [List.count_cons_self]
          simp only [hpa, if_true] at hih1 hih2 ⊢
          constructor
          · rw [hih1, hs1]
            omega
          · rw [hih2, hs2]
            omega
        · obtain ⟨hs1, hs2⟩ :=
            recordAction_countSink_other now source_uid x a ActionType.unblock st hax
          rw [List.count_cons_of_ne (fun hh => hax hh.symm)]
          constructor
          · rw [hih1, hs1]
          · rw [hih2, hs2]
      · rw [if_neg hpa]
        obtain ⟨hih1, hih2⟩ := ih st hext
        by_cases hpx : present.contains x = true
        · have hax : ¬ a = x := by
            intro hh
            rw [hh] at hpa
            exact hpa hpx
          rw [List.count_cons_of_ne (fun hh => hax hh.symm)]
          exact ⟨hih1, hih2⟩
        · rw [if_neg hpx] at hih1 hih2
          constructor
          · rw [hih1, if_neg hpx]
          · rw [hih2, if_neg hpx]

theorem lookup_fold_annotated_absent (now : Int) (source_uid x : String)
    (present : List String) (hpres : present.contains x = true) :
    ∀ (l : List String) (st : Db), x ∈ l →
      ∀ b ∈ (l.foldl (fun st sink_uid =>
          if present.contains sink_uid
          then (recordAction now source_uid sink_uid ActionType.unblock st).1
          else st) st).annotatedBlocks,
        ¬(b.source_uid = source_uid ∧ b.sink_uid = x) := by
  intro l
  induction l with
  | nil => intro st hx; exact absurd hx (List.not_mem_nil x)
  | cons a t ih =>
      intro st hx b hb
      rw [List.foldl_cons] at hb
      by_cases hax : a = x
      · subst hax
        rw [if_pos hpres] at hb
        have hb1 := foldl_annotated_subset _
          (fun st2 k => lookup_step_annotated_subset now source_uid present st2 k) t _ b hb
        rw [recordAction_unblock_annotated] at hb1
        have hpred := (List.mem_filter.mp hb1).2
        rintro ⟨hs, hk⟩
        rw [hs, hk] at hpred
        simp at hpred
      · rcases List.mem_cons.mp hx with hh | hh
        · exact absurd hh.symm hax
        · exact ih _ hh b hb

theorem processLookupBatch_counts_zero (now : Int) (source_uid x : String)
    (uids : List String) (res : LookupResult) (st : Db) (hext : allExternal st)
    (hz : uids.count x = 0) :
    countSinkActions source_uid x
        (processLookupBatch now source_uid uids res st).actions
      = countSinkActions source_uid x st.actions ∧
    countSinkUnblocks source_uid x
        (processLookupBatch now source_uid uids res st).actions
      = countSinkUnblocks source_uid x st.actions := by
  cases res with
  | notFound => exact ⟨rfl, rfl⟩
  | otherError => exact ⟨rfl, rfl⟩
  | ok present =>
      obtain ⟨h1, h2⟩ :=
        lookup_fold_countSink_of_allExternal now source_uid x present uids st hext
      rw [hz] at h1 h2
      constructor
      · simp only [processLookupBatch]
        rw [h1, ite_self]
        omega
      · simp only [processLookupBatch]
        rw [h2, ite_self]
        omega

theorem recordUnblocksLoop_counts_zero (now : Int) (source_uid x : String) :
    ∀ (fuel : Nat) (uids : List String) (lookups : List LookupResult) (st : Db),
      allExternal st → uids.count x = 0 →
      countSinkActions source_uid x
          (recordUnblocksLoop now source_uid fuel uids lookups st).1.actions
        = countSinkActions source_uid x st.actions ∧
      countSinkUnblocks source_uid x
          (recordUnblocksLoop now source_uid fuel uids lookups st).1.actions
        = countSinkUnblocks source_uid x st.actions := by
  intro fuel
  induction fuel with
  | zero => intro uids lookups st hext hz; cases uids <;> exact ⟨rfl, rfl⟩
  | succ n ih =>
      intro uids lookups st hext hz
      cases uids with
      | nil => exact ⟨rfl, rfl⟩
      | cons u us =>
          simp only [recordUnblocksLoop]
          have hsplit := count_take_add_count_drop x (u :: us) 100
          have hz1 : ((u :: us).take 100).count x = 0 := by omega
          have hz2 : ((u :: us).drop 100).count x = 0 := by omega
          have hbatch := processLookupBatch_counts_zero now source_uid x
            ((u :: us).take 100) (lookups.headD LookupResult.otherError) st hext hz1
          have hrec := ih ((u :: us).drop 100) lookups.tail
            (processLookupBatch now source_uid ((u :: us).take 100)
              (lookups.headD LookupResult.otherError) st)
            (processLookupBatch_allExternal _ _ _ _ _ hext) hz2
          exact ⟨hrec.1.trans hbatch.1, hrec.2.trans hbatch.2⟩

theorem recordUnblocksLoop_cases (now : Int) (source_uid x : String) :
    ∀ (fuel : Nat) (uids : List String) (lookups : List LookupResult) (st : Db),
      uids.length ≤ fuel → allExternal st → uids.count x = 1 →
      (∀ present,
        batchResultForLoop x fuel uids lookups = some (LookupResult.ok present) →
        (present.contains x = true →
          countSinkActions source_uid x
              (recordUnblocksLoop now source_uid fuel uids lookups st).1.actions
            = countSinkActions source_uid x st.actions + 1 ∧
          countSinkUnblocks source_uid x
              (recordUnblocksLoop now source_uid fuel uids lookups st).1.actions
            = countSinkUnblocks source_uid x st.actions + 1 ∧
          ∀ b ∈ (recordUnblocksLoop now source_uid fuel uids lookups st).1.annotatedBlocks,
            ¬(b.source_uid = source_uid ∧ b.sink_uid = x)) ∧
        (present.contains x = false →
          countSinkActions source_uid x
              (recordUnblocksLoop now source_uid fuel uids lookups st).1.actions
            = countSinkActions source_uid x st.actions ∧
          countSinkUnblocks source_uid x
              (recordUnblocksLoop now source_uid fuel uids lookups st).1.actions
            = countSinkUnblocks source_uid x st.actions)) ∧
      ((batchResultForLoop x fuel uids lookups = some LookupResult.notFound ∨
        batchResultForLoop x fuel uids lookups = some LookupResult.otherError ∨
        batchResultForLoop x fuel uids lookups = none) →
        countSinkActions source_uid x
            (recordUnblocksLoop now source_uid fuel uids lookups st).1.actions
          = countSinkActions source_uid x st.actions ∧
        countSinkUnblocks source_uid x
            (recordUnblocksLoop now source_uid fuel uids lookups st).1.actions
          = countSinkUnblocks source_uid x st.actions) := by
  intro fuel
  induction fuel with
  | zero =>
      intro uids lookups st hlen hext hone
      have hnil : uids = [] := List.eq_nil_of_length_eq_zero (Nat.le_zero.mp hlen)
      subst hnil
      simp at hone
  | succ n ih =>
      intro uids lookups st hlen hext hone
      cases uids with
      | nil => simp at hone
      | cons u us =>
          have hsplitc := count_take_add_count_drop x (u :: us) 100
          have hlen2 : ((u :: us).drop 100).length ≤ n := by
            rw [List.length_drop]
            simp only [List.length_cons] at hlen ⊢
            omega
          by_cases hx : ((u :: us).take 100).contains x = true
          · have hxmem : x ∈ (u :: us).take 100 := by simpa using hx
            have hpos : 0 < ((u :: us).take 100).count x := List.count_pos_iff.mpr hxmem
            have hc1 : ((u :: us).take 100).count x = 1 := by omega
            have hc2 : ((u :: us).drop 100).count x = 0 := by omega
            cases lookups with
            | nil =>
                have hbr : batchResultForLoop x (n + 1) (u :: us)
                    ([] : List LookupResult) = none := by
                  simp only [batchResultForLoop]
                  rw [if_pos hx]
                  rfl
                rw [hbr]
                refine ⟨?_, ?_⟩
                · intro present hpres
                  exact absurd hpres (by simp)
                · intro _
                  have hcz := recordUnblocksLoop_counts_zero now source_uid x n
                    ((u :: us).drop 100) ([] : List LookupResult)
                    (processLookupBatch now source_uid ((u :: us).take 100)
                      LookupResult.otherError st)
                    (processLookupBatch_allExternal _ _ _ _ _ hext) hc2
                  exact ⟨hcz.1, hcz.2⟩
            | cons r lr =>
                have hbr : batchResultForLoop x (n + 1) (u :: us) (r :: lr)
                    = some r := by
                  simp only [batchResultForLoop]
                  rw [if_pos hx]
                  rfl
                rw [hbr]
                cases r with
                | notFound =>
                    refine ⟨?_, ?_⟩
                    · intro present hpres
                      exact absurd (Option.some.inj hpres) (by simp)
                    · intro _
                      have hcz := recordUnblocksLoop_counts_zero now source_uid x n
                        ((u :: us).drop 100) lr
                        (processLookupBatch now source_uid ((u :: us).take 100)
                          LookupResult.notFound st)
                        (processLookupBatch_allExternal _ _ _ _ _ hext) hc2
                      exact ⟨hcz.1, hcz.2⟩
                | otherError =>
                    refine ⟨?_, ?_⟩
                    · intro present hpres
                      exact absurd (Option.some.inj hpres) (by simp)
                    · intro _
                      have hcz := recordUnblocksLoop_counts_zero now source_uid x n
                        ((u :: us).drop 100) lr
                        (processLookupBatch now source_uid ((u :: us).take 100)
                          LookupResult.otherError st)
                        (processLookupBatch_allExternal _ _ _ _ _ hext) hc2
                      exact ⟨hcz.1, hcz.2⟩
                | ok present0 =>
                    have hloop : recordUnblocksLoop now source_uid (n + 1) (u :: us)
                        (LookupResult.ok present0 :: lr) st
                        = recordUnblocksLoop now source_uid n ((u :: us).drop 100) lr
                            (processLookupBatch now source_uid ((u :: us).take 100)
                              (LookupResult.ok present0) st) := rfl
                    rw [hloop]
                    refine ⟨?_, ?_⟩
                    · intro present hpres
                      have hpe : present0 = present := by
                        have h2 := Option.some.inj hpres
                        injection h2
                      subst hpe
                      have hextb := processLookupBatch_allExternal now source_uid
                        ((u :: us).take 100) (LookupResult.ok present0) st hext
                      have hcz := recordUnblocksLoop_counts_zero now source_uid x n
                        ((u :: us).drop 100) lr
                        (processLookupBatch now source_uid ((u :: us).take 100)
                          (LookupResult.ok present0) st) hextb hc2
                      obtain ⟨hf1, hf2⟩ := lookup_fold_countSink_of_allExternal now
                        source_uid x present0 ((u :: us).take 100) st hext
                      rw [hc1] at hf1 hf2
                      constructor
                      · intro hpx
                        rw [if_pos hpx] at hf1 hf2
                        have habs := lookup_fold_annotated_absent now source_uid x
                          present0 hpx ((u :: us).take 100) st hxmem
                        refine ⟨hcz.1.trans hf1, hcz.2.trans hf2, ?_⟩
                        intro b hb
                        have hb1 := recordUnblocksLoop_annotated_subset now source_uid n
                          ((u :: us).drop 100) lr
                          (processLookupBatch now source_uid ((u :: us).take 100)
                            (LookupResult.ok present0) st) b hb
                        exact habs b hb1
                      · intro hpx
                        have hnpx : ¬ present0.contains x = true := by
                          rw [hpx]
                          exact Bool.false_ne_true
                        rw [if_neg hnpx] at hf1 hf2
                        have hh1 := hcz.1.trans hf1
                        have hh2 := hcz.2.trans hf2
                        rw [Nat.add_zero] at hh1 hh2
                        exact ⟨hh1, hh2⟩
                    · intro hcon
                      rcases hcon with hh | hh | hh
                      · exact absurd (Option.some.inj hh) (by simp)
                      · exact absurd (Option.some.inj hh) (by simp)
                      · exact absurd hh (by simp)
          · have hxnot : ¬ x ∈ (u :: us).take 100 := by
              intro hmem
              exact hx (by simpa using hmem)
            have hzb : ((u :: us).take 100).count x = 0 := List.count_eq_zero.mpr hxnot
            have hcd : ((u :: us).drop 100).count x = 1 := by omega
            have hbr : batchResultForLoop x (n + 1) (u :: us) lookups
                = batchResultForLoop x n ((u :: us).drop 100) lookups.tail := by
              simp only [batchResultForLoop]
              rw [if_neg hx]
            have hloop : recordUnblocksLoop now source_uid (n + 1) (u :: us) lookups st
                = recordUnblocksLoop now source_uid n ((u :: us).drop 100) lookups.tail
                    (processLookupBatch now source_uid ((u :: us).take 100)
                      (lookups.headD LookupResult.otherError) st) := rfl
            rw [hloop, hbr]
            have hbatch := processLookupBatch_counts_zero now source_uid x
              ((u :: us).take 100) (lookups.headD LookupResult.otherError) st hext hzb
            have hextb := processLookupBatch_allExternal now source_uid
              ((u :: us).take 100) (lookups.headD LookupResult.otherError) st hext
            obtain ⟨hihA, hihB⟩ := ih ((u :: us).drop 100) lookups.tail
              (processLookupBatch now source_uid ((u :: us).take 100)
                (lookups.headD LookupResult.otherError) st) hlen2 hextb hcd
            refine ⟨?_, ?_⟩
            · intro present hpres
              obtain ⟨hA1, hA2⟩ := hihA present hpres
              constructor
              · intro hpx
                obtain ⟨q1, q2, q3⟩ := hA1 hpx
                refine ⟨?_, ?_, q3⟩
                · rw [q1, hbatch.1]
                · rw [q2, hbatch.2]
              · intro hpx
                obtain ⟨q1, q2⟩ := hA2 hpx
                exact ⟨q1.trans hbatch.1, q2.trans hbatch.2⟩
            · intro hcon
              obtain ⟨q1, q2⟩ := hihB hcon
              exact ⟨q1.trans hbatch.1, q2.trans hbatch.2⟩

/-- C9: with every persisted action caused EXTERNAL (so the dedup query
cannot fire) and a removed identifier x occurring once in the list, the
deactivation filter behaves per batch as follows.  If the lookup of the
batch containing x succeeds: when x is present in the response exactly
one new action is recorded for (source, x), it is an UNBLOCK, and the
Annotated Entry for (source, x) is deleted; when x is absent from the
response no action is recorded for x.  If the lookup of that batch
fails with the all-absent 404 or any other error (including an
exhausted script), no action is recorded for x. -/
theorem deactivation_filter_cases (now : Int) (source_uid x : String)
    (sink_uids : List String) (lookups : List LookupResult) (st : Db)
    (hclean : allExternal st) (hone : sink_uids.count x = 1) :
    (∀ present,
      batchResultFor x sink_uids lookups = some (LookupResult.ok present) →
      (present.contains x = true →
        countSinkActions source_uid x
            (recordUnblocksUnlessDeactivated now source_uid sink_uids lookups st).1.actions
          = countSinkActions source_uid x st.actions + 1 ∧
        countSinkUnblocks source_uid x
            (recordUnblocksUnlessDeactivated now source_uid sink_uids lookups st).1.actions
          = countSinkUnblocks source_uid x st.actions + 1 ∧
        ∀ b ∈ (recordUnblocksUnlessDeactivated now source_uid sink_uids
            lookups st).1.annotatedBlocks,
          ¬(b.source_uid = source_uid ∧ b.sink_uid = x)) ∧
      (present.contains x = false →
        countSinkActions source_uid x
            (recordUnblocksUnlessDeactivated now source_uid sink_uids lookups st).1.actions
          = countSinkActions source_uid x st.actions ∧
        countSinkUnblocks source_uid x
            (recordUnblocksUnlessDeactivated now source_uid sink_uids lookups st).1.actions
          = countSinkUnblocks source_uid x st.actions)) ∧
    ((batchResultFor x sink_uids lookups = some LookupResult.notFound ∨
      batchResultFor x sink_uids lookups = some LookupResult.otherError ∨
      batchResultFor x sink_uids lookups = none) →
      countSinkActions source_uid x
          (recordUnblocksUnlessDeactivated now source_uid sink_uids lookups st).1.actions
        = countSinkActions source_uid x st.actions ∧
      countSinkUnblocks source_uid x
          (recordUnblocksUnlessDeactivated now source_uid sink_uids lookups st).1.actions
        = countSinkUnblocks source_uid x st.actions) :=
  recordUnblocksLoop_cases now source_uid x sink_uids.length sink_uids lookups st
    le_rfl hclean hone

/-- C9 witness: from a store where (s, 7) is annotated and no actions
exist, removing id "7" with a lookup that confirms it still active
records exactly one UNBLOCK action for (s, 7) and deletes the annotated
row. -/
theorem deactivation_filter_cases_witness :
    (∀ present,
      batchResultFor "7" ["7"] [LookupResult.ok ["7"]] = some (LookupResult.ok present) →
      (present.contains "7" = true →
        countSinkActions "s" "7"
            (recordUnblocksUnlessDeactivated 0 "s" ["7"]
              [LookupResult.ok ["7"]] c9Db).1.actions
          = countSinkActions "s" "7" c9Db.actions + 1 ∧
        countSinkUnblocks "s" "7"
            (recordUnblocksUnlessDeactivated 0 "s" ["7"]
              [LookupResult.ok ["7"]] c9Db).1.actions
          = countSinkUnblocks "s" "7" c9Db.actions + 1 ∧
        ∀ b ∈ (recordUnblocksUnlessDeactivated 0 "s" ["7"]
            [LookupResult.ok ["7"]] c9Db).1.annotatedBlocks,
          ¬(b.source_uid = "s" ∧ b.sink_uid = "7")) ∧
      (present.contains "7" = false →
        countSinkActions "s" "7"
            (recordUnblocksUnlessDeactivated 0 "s" ["7"]
              [LookupResult.ok ["7"]] c9Db).1.actions
          = countSinkActions "s" "7" c9Db.actions ∧
        countSinkUnblocks "s" "7"
            (recordUnblocksUnlessDeactivated 0 "s" ["7"]
              [LookupResult.ok ["7"]] c9Db).1.actions
          = countSinkUnblocks "s" "7" c9Db.actions)) ∧
    ((batchResultFor "7" ["7"] [LookupResult.ok ["7"]] = some LookupResult.notFound ∨
      batchResultFor "7" ["7"] [LookupResult.ok ["7"]] = some LookupResult.otherError ∨
      batchResultFor "7" ["7"] [LookupResult.ok ["7"]] = none) →
      countSinkActions "s" "7"
          (recordUnblocksUnlessDeactivated 0 "s" ["7"]
            [LookupResult.ok ["7"]] c9Db).1.actions
        = countSinkActions "s" "7" c9Db.actions ∧
      countSinkUnblocks "s" "7"
          (recordUnblocksUnlessDeactivated 0 "s" ["7"]
            [LookupResult.ok ["7"]] c9Db).1.actions
        = countSinkUnblocks "s" "7" c9Db.actions) :=
  deactivation_filter_cases 0 "s" "7" ["7"] [LookupResult.ok ["7"]] c9Db
    (by intro a ha; simp [c9Db, emptyDb] at ha) (by decide)

end UpdateBlocksJs
